import Mathlib

/-!
Verification development for the EmailScope pipeline (crawler, extractor,
verifier).  Python strings are modelled as `List Char`; Python's `set` is
modelled as an insertion-ordered duplicate-free list (the claims settled
here are insensitive to set iteration order); external collaborators
(HTTP fetching, BeautifulSoup anchor enumeration, `urljoin`, the DNS
resolver) are passed in as oracle parameters.  Character-level operations
(`str.lower`, `str.strip`, `\s` in regexes) are modelled over ASCII,
matching Python's behaviour on ASCII input.
-/

/-- Python strings, modelled as lists of characters. -/
abbrev Str := List Char

/-- Python `\s` (ASCII): space, tab, newline, carriage return, vertical tab, form feed. -/
def pyWs (c : Char) : Bool :=
  c = ' ' || c = '\t' || c = '\n' || c = '\r' || c = '\x0b' || c = '\x0c'

/-- ASCII lower-case letter. -/
def isLowerAZ (c : Char) : Bool := 'a' ≤ c && c ≤ 'z'

/-- ASCII upper-case letter. -/
def isUpperAZ (c : Char) : Bool := 'A' ≤ c && c ≤ 'Z'

/-- ASCII letter. -/
def isAlphaAZ (c : Char) : Bool := isLowerAZ c || isUpperAZ c

/-- ASCII digit. -/
def isDigit09 (c : Char) : Bool := '0' ≤ c && c ≤ '9'

/-- ASCII alphanumeric. -/
def isAlnumAZ (c : Char) : Bool := isAlphaAZ c || isDigit09 c

/-- The ASCII upper/lower case pairs. -/
def upperPairs : List (Char × Char) :=
  [('A', 'a'), ('B', 'b'), ('C', 'c'), ('D', 'd'), ('E', 'e'), ('F', 'f'),
   ('G', 'g'), ('H', 'h'), ('I', 'i'), ('J', 'j'), ('K', 'k'), ('L', 'l'),
   ('M', 'm'), ('N', 'n'), ('O', 'o'), ('P', 'p'), ('Q', 'q'), ('R', 'r'),
   ('S', 's'), ('T', 't'), ('U', 'u'), ('V', 'v'), ('W', 'w'), ('X', 'x'),
   ('Y', 'y'), ('Z', 'z')]

/-- Python `str.lower` on a single ASCII character: an upper-case letter
maps to its pair, anything else is unchanged. -/
def pyToLower (c : Char) : Char :=
  match upperPairs.find? (fun p => p.1 = c) with
  | some p => p.2
  | none => c

/-- Python `str.lower` over a whole string. -/
def pyLower (s : Str) : Str := s.map pyToLower

/-- Drop a trailing run of characters satisfying `p` (used by `strip`). -/
def rDropWhile (p : Char → Bool) (s : Str) : Str := (s.reverse.dropWhile p).reverse

/-- Python `str.strip()` (whitespace at both ends). -/
def pyStrip (s : Str) : Str := rDropWhile pyWs (s.dropWhile pyWs)

/-- Python `str.strip('()')`: strip parentheses from both ends. -/
def isParenCh (c : Char) : Bool := c = '(' || c = ')'

/-- Python `email.strip('()')`. -/
def pyStripParens (s : Str) : Str := rDropWhile isParenCh (s.dropWhile isParenCh)

/-- Python substring test `needle in hay` (case sensitive). -/
def containsSub (needle hay : Str) : Bool :=
  (List.range (hay.length + 1)).any fun i => (hay.drop i).take needle.length == needle

/-- Python `hay.startswith(pre)`. -/
def startsWith (pre s : Str) : Bool := s.take pre.length == pre

/-- Python `hay.endswith(suf)`. -/
def endsWith (suf s : Str) : Bool := s.drop (s.length - suf.length) == suf && suf.length ≤ s.length

/-- Python `s.count(c)` for a single character. -/
def countChar (c : Char) (s : Str) : Nat := s.countP (· = c)

/-- Python `s.split(sep)` for a one-character separator: splits at every
occurrence, keeping empty parts. -/
def pySplit (sep : Char) : Str → List Str
  | [] => [[]]
  | c :: rest =>
    let r := pySplit sep rest
    if c = sep then [] :: r
    else match r with
      | [] => [[c]]
      | p :: ps => (c :: p) :: ps

/-- Accumulate into a Python `set`, modelled as an insertion-ordered
duplicate-free list: adding an element already present is a no-op. -/
def pySetAdd (s : List Str) (x : Str) : List Str := if x ∈ s then s else s ++ [x]

/-- Turn a list into a Python `set` (insertion-ordered, first occurrence kept). -/
def pySetList (l : List Str) : List Str := l.foldl pySetAdd []

/-- Decimal digits of a natural number, most significant first
(Python `str(n)` for `n ≥ 0`). -/
def natDigitsF : Nat → Nat → Str
  | 0, _ => []
  | fuel + 1, n =>
    if n < 10 then [Char.ofNat (48 + n)]
    else natDigitsF fuel (n / 10) ++ [Char.ofNat (48 + n % 10)]

/-- Decimal digits, with fuel `n + 1` (ample, as `n / 10 < n`). -/
def natDigits (n : Nat) : Str := natDigitsF (n + 1) n

/-- Python `str(i)` for an integer. -/
def intToStr (i : Int) : Str :=
  if i < 0 then '-' :: natDigits (-i).toNat else natDigits i.toNat

/-- Python `", ".join(parts)`. -/
def joinComma : List Str → Str
  | [] => []
  | [p] => p
  | p :: ps => p ++ (", ".data) ++ joinComma ps

/-!
## Email extractor (`src/emailscope/extractor.py`)

Candidate generation (`generate_common_emails` and its helpers).
-/

/-- `common_formats` local parts (`info@{domain}` … `primary@{domain}`). -/
def common_formats : List Str :=
  ["info", "contact", "hello", "support", "sales", "admin", "team",
   "office", "help", "service", "inquiry", "general", "main", "primary"].map String.data

/-- `industry_patterns`: local parts per industry key. -/
def industry_patterns (industry : Str) : List Str :=
  if industry = "tech".data then ["dev", "tech", "engineering", "developers"].map String.data
  else if industry = "media".data then ["press", "media", "news", "editor"].map String.data
  else if industry = "finance".data then ["finance", "accounting", "billing", "payments"].map String.data
  else if industry = "healthcare".data then ["medical", "health", "patient", "clinic"].map String.data
  else if industry = "education".data then ["academic", "education", "student", "faculty"].map String.data
  else if industry = "retail".data then ["store", "shop", "orders", "customers"].map String.data
  else []

/-- `_detect_industry`: keyword tables checked in source order. -/
def detect_industry (domain : Str) : Str :=
  let hasAny (kws : List String) : Bool := kws.any fun kw => containsSub kw.data domain
  if hasAny ["tech", "software", "app", "dev", "code", "digital", "it", "computer"] then "tech".data
  else if hasAny ["media", "news", "press", "blog", "content", "publishing"] then "media".data
  else if hasAny ["bank", "finance", "financial", "investment", "capital", "money"] then "finance".data
  else if hasAny ["health", "medical", "clinic", "hospital", "doctor", "care"] then "healthcare".data
  else if hasAny ["edu", "university", "college", "school", "academy", "institute"] then "education".data
  else if hasAny ["shop", "store", "market", "commerce", "retail", "buy"] then "retail".data
  else "general".data

/-- `_generate_industry_emails`. -/
def generate_industry_emails (domain : Str) : List Str :=
  let industry := detect_industry (pyLower domain)
  (industry_patterns industry).map fun lp => lp ++ '@' :: domain

/-- `_generate_company_emails`.  Note: the source builds the shortened
3-character variants into the local list `emails` but returns
`company_emails`, so the shortened variants never reach the caller; the
embedding reproduces that behaviour. -/
def generate_company_emails (domain : Str) : List Str :=
  let company_name := (pySplit '.' domain).headD []
  let company_emails : List Str :=
    [company_name ++ '@' :: domain,
     "info@".data ++ company_name ++ ".com".data,
     "contact@".data ++ company_name ++ ".com".data,
     "hello@".data ++ company_name ++ ".com".data]
  company_emails

/-- The cleaned domain computed at the start of `generate_common_emails`:
lower-case, strip whitespace, drop one leading `www.`. -/
def cleanDomain (domain : Str) : Str :=
  let d := pyStrip (pyLower domain)
  if startsWith "www.".data d then d.drop 4 else d

/-- `generate_common_emails`. -/
def generate_common_emails (domain : Str) : List Str :=
  let clean_domain := cleanDomain domain
  let standard := common_formats.map fun lp => lp ++ '@' :: clean_domain
  standard ++ generate_industry_emails clean_domain ++ generate_company_emails clean_domain

/-!
## Email verifier (`src/emailscope/verifier.py`)

The DNS resolver is an oracle parameter `mx : Str → Bool × Str`
(the result of `_check_mx_record` for a given domain).
-/

/-- `disposable_domains` denylist. -/
def disposable_domains : List Str :=
  ["10minutemail.com", "tempmail.org", "guerrillamail.com", "mailinator.com",
   "throwaway.email", "temp-mail.org", "getnada.com", "maildrop.cc",
   "yopmail.com", "tempail.com", "sharklasers.com", "guerrillamailblock.com"].map String.data

/-- `reputable_domains` allowlist. -/
def reputable_domains : List Str :=
  ["gmail.com", "yahoo.com", "outlook.com", "hotmail.com", "icloud.com",
   "aol.com", "protonmail.com", "zoho.com", "fastmail.com"].map String.data

/-- Case-sensitive literal match of `lit` at index `i` of `l`. -/
def litAt (lit : Str) (l : Str) (i : Nat) : Bool := (l.drop i).take lit.length == lit

/-- Case-insensitive literal match of `lit` at index `i` of `l`. -/
def litAtCI (lit : Str) (l : Str) (i : Nat) : Bool :=
  pyLower ((l.drop i).take lit.length) == pyLower lit

/-- No newline among characters `i ≤ k < j` of `l` (regex `.` without DOTALL). -/
def noNL (l : Str) (i j : Nat) : Bool := ((l.drop i).take (j - i)).all (· ≠ '\n')

/-- Helper for `re.search` of a pattern `p₀.*p₁.*…` (case-insensitive):
once positioned at `i`, each remaining literal part must occur in order,
with only non-newline characters in the gaps. -/
def matchGapSeqCI (l : Str) : List Str → Nat → Bool
  | [], _ => true
  | p :: ps, i =>
    (List.range (l.length + 1)).any fun j =>
      i ≤ j && noNL l i j && litAtCI p l j && matchGapSeqCI l ps (j + p.length)

/-- `re.search(p₀ + ".*" + p₁ + …, s, re.IGNORECASE)` succeeds: the literal
parts appear in order somewhere in `s`, with non-newline gaps. -/
def searchSeqCI (parts : List Str) (l : Str) : Bool :=
  match parts with
  | [] => true
  | p :: ps =>
    (List.range (l.length + 1)).any fun i => litAtCI p l i && matchGapSeqCI l ps (i + p.length)

/-- `_check_disposable_email`.  The lexical patterns
`temp.*mail`, `throw.*away`, `fake.*mail`, `test.*mail`, `no.*reply`,
`noreply`, `do.*not.*reply` are compiled to ordered-literal searches. -/
def check_disposable_email (domain : Str) : Bool × Str :=
  if domain ∈ disposable_domains then
    (true, "Known disposable domain: ".data ++ domain)
  else
    let pats : List (List Str) :=
      [["temp", "mail"], ["throw", "away"], ["fake", "mail"], ["test", "mail"],
       ["no", "reply"], ["noreply"], ["do", "not", "reply"]].map (List.map String.data)
    if pats.any fun p => searchSeqCI p domain then
      (true, "Disposable pattern detected: ".data ++ domain)
    else (false, "Not disposable".data)

/-- `re.search("[0-9]{4,}", s)` succeeds iff some window of 4 consecutive
characters is all digits. -/
def hasDigitRun4 (s : Str) : Bool :=
  (List.range (s.length + 1)).any fun i => ((s.drop i).take 4).all isDigit09 && i + 4 ≤ s.length

/-- `re.search("[a-z]{1,2}[0-9]{3,}", s)` succeeds iff a lower-case letter is
immediately followed by 3 digits somewhere (any longer match contains such a
window, and the window itself is a match). -/
def hasLetterDigits (s : Str) : Bool :=
  (List.range (s.length + 1)).any fun i =>
    i + 4 ≤ s.length && ((s.drop i).take 1).all isLowerAZ && ((s.drop (i+1)).take 3).all isDigit09

/-- `re.search("[0-9]{3,}[a-z]{1,2}", s)` succeeds iff 3 consecutive digits
are immediately followed by a lower-case letter somewhere. -/
def hasDigitsLetter (s : Str) : Bool :=
  (List.range (s.length + 1)).any fun i =>
    i + 4 ≤ s.length && ((s.drop i).take 3).all isDigit09 && ((s.drop (i+3)).take 1).all isLowerAZ

/-- `_check_domain_reputation`.  The three suspicious regexes all yield the
same result tuple, so the source's first-match loop is an any-of check. -/
def check_domain_reputation (domain : Str) : Int × Str :=
  if domain ∈ reputable_domains then (90, "High reputation domain: ".data ++ domain)
  else if hasDigitRun4 domain || hasLetterDigits domain || hasDigitsLetter domain then
    (20, "Suspicious pattern: ".data ++ domain)
  else if domain.length < 5 then (30, "Very short domain: ".data ++ domain)
  else if domain.length > 30 then (40, "Very long domain: ".data ++ domain)
  else (60, "Unknown domain: ".data ++ domain)

/-- Character class `[a-zA-Z0-9._+-]` of the verifier's local part. -/
def vLocalCls (c : Char) : Bool := isAlnumAZ c || c = '.' || c = '_' || c = '+' || c = '-'

/-- Character class `[a-zA-Z0-9.-]` of the verifier's domain part. -/
def vDomCls (c : Char) : Bool := isAlnumAZ c || c = '.' || c = '-'

/-- Full match of `[a-zA-Z0-9]([a-zA-Z0-9._+-]*[a-zA-Z0-9])?`: nonempty,
first and last alphanumeric, all characters in the class. -/
def vLocalOk (l : Str) : Bool :=
  (match l.head? with | some c => isAlnumAZ c | none => false)
  && (match l.getLast? with | some c => isAlnumAZ c | none => false)
  && l.all vLocalCls

/-- Full match of `[a-zA-Z0-9]([a-zA-Z0-9.-]*[a-zA-Z0-9])?\.[a-zA-Z]{2,}`:
some `.` splits it into a class-valid core and an all-letter TLD of length
at least 2. -/
def vDomOk (r : Str) : Bool :=
  (List.range r.length).any fun i =>
    r.get? i == some '.'
    && (let d := r.take i
        (match d.head? with | some c => isAlnumAZ c | none => false)
        && (match d.getLast? with | some c => isAlnumAZ c | none => false)
        && d.all vDomCls)
    && (let t := r.drop (i + 1)
        2 ≤ t.length && t.all isAlphaAZ)

/-- Anchored full match of the verifier's `email_pattern` regex.  The
character classes exclude `@`, so a match splits at the (unique) `@`. -/
def matchesVerifierRe (email : Str) : Bool :=
  (List.range email.length).any fun i =>
    email.get? i == some '@' && vLocalOk (email.take i) && vDomOk (email.drop (i + 1))

/-- `_validate_email_format`: the staged checks in source order. -/
def validate_email_format (email : Str) : Bool × Str :=
  if email = [] then (false, "Empty or invalid input".data)
  else if ¬('@' ∈ email) || countChar '@' email ≠ 1 then (false, "Invalid email structure".data)
  else
    let parts := pySplit '@' email
    let lcl := parts.headD []
    let domain := (parts.drop 1).headD []
    if lcl = [] || lcl.length > 64 then (false, "Invalid local part".data)
    else if domain = [] || domain.length > 253 then (false, "Invalid domain part".data)
    else if containsSub "..".data email then (false, "Consecutive dots not allowed".data)
    else if ¬ matchesVerifierRe email then (false, "Invalid characters or format".data)
    else if ¬ ('.' ∈ domain) then (false, "Domain must have TLD".data)
    else
      let tld := (pySplit '.' domain).getLastD []
      if tld.length < 2 then (false, "TLD too short".data)
      else (true, "Valid format".data)

/-- `_calculate_enhanced_confidence`. -/
def calculate_enhanced_confidence (format_valid mx_valid smtp_valid : Bool)
    (reputation_score : Int) (domain : Str) : Int :=
  if ¬format_valid then 0
  else if ¬mx_valid then 0
  else
    let base : Int := 20 + 30 + (if smtp_valid then 20 else 0) + min reputation_score 30
    let base := if domain ∈ reputable_domains then base + 10 else base
    let base := if domain.length < 5 || domain.length > 30 then base - 10 else base
    min (max base 0) 100

/-- The domain extracted in `verify_email`: `email.split('@')[1].lower()`. -/
def emailDomain (email : Str) : Str := pyLower (((pySplit '@' email).drop 1).headD [])

/-- `verify_email`, parameterised by `mock_dns` and the MX oracle. -/
def verify_email (mock_dns : Bool) (mx : Str → Bool × Str) (email : Str) :
    Bool × Int × Str :=
  let fmt := validate_email_format email
  if ¬fmt.1 then (false, 0, "Format invalid: ".data ++ fmt.2)
  else
    let domain := emailDomain email
    let disp := check_disposable_email domain
    if disp.1 then (false, 10, "Disposable email: ".data ++ disp.2)
    else
      let rep := check_domain_reputation domain
      let mxp := if mock_dns then (true, "Mock DNS - assumed valid".data) else mx domain
      if ¬mock_dns && ¬mxp.1 then (false, 0, "MX check failed: ".data ++ mxp.2)
      else
        let smtp_valid := true
        let confidence := calculate_enhanced_confidence fmt.1 mxp.1 smtp_valid rep.1 domain
        let is_valid := fmt.1 && mxp.1 && decide (confidence > 30) && ¬disp.1
        let reasons : List Str :=
          (if fmt.1 then ["Format: OK".data] else [])
          ++ (if mxp.1 then ["MX: OK".data] else [])
          ++ (if smtp_valid then ["SMTP: OK".data] else [])
          ++ (if rep.1 > 0 then ["Reputation: ".data ++ intToStr rep.1 ++ "/100".data] else [])
          ++ (if ¬disp.1 then ["Not disposable".data] else [])
        (is_valid, confidence, joinComma reasons)

/-!
## Extractor text recognition (`extract_emails_from_content` and friends)

The source's regexes are hand-compiled to executable matchers.  Each
quantifier here is over a single character class; a class followed by a
token that no class character can start is *forced* (greedy maximal run,
no backtracking possible), and genuine backtracking only remains in the
`[A-Za-z0-9.-]+\.[A-Z|a-z]{2,}` domain tail, implemented by descending
enumeration of the two run lengths (greedy preference order).
-/

/-- Regex word character (`\w`): alphanumeric or underscore (ASCII). -/
def isWordCh (c : Char) : Bool := isAlnumAZ c || c = '_'

/-- Whether position `i` of `l` holds a word character. -/
def wordAt (l : Str) (i : Nat) : Bool :=
  match l.get? i with | some c => isWordCh c | none => false

/-- Regex `\b` at position `i`: word-ness changes between `i-1` and `i`
(out of range counts as non-word). -/
def boundaryAt (l : Str) (i : Nat) : Bool :=
  (match i with | 0 => false | j + 1 => wordAt l j) != wordAt l i

/-- Length of the maximal run of characters satisfying `p` starting at `i`. -/
def runLen (p : Char → Bool) (l : Str) (i : Nat) : Nat :=
  ((l.drop i).takeWhile p).length

/-- `[hi, hi-1, …, lo]` (empty when `hi < lo`): greedy preference order. -/
def descRange (lo hi : Nat) : List Nat :=
  (List.range (hi + 1 - lo)).map fun k => hi - k

/-- Extractor local-part class `[A-Za-z0-9._%+-]`. -/
def eCls1 (c : Char) : Bool := isAlnumAZ c || c = '.' || c = '_' || c = '%' || c = '+' || c = '-'

/-- Extractor domain class `[A-Za-z0-9.-]`. -/
def eCls2 (c : Char) : Bool := isAlnumAZ c || c = '.' || c = '-'

/-- TLD class `[A-Z|a-z]`: letters and, literally, the pipe character. -/
def tldCls (c : Char) : Bool := isAlphaAZ c || c = '|'

/-- What must follow the TLD run of a pattern. -/
inductive TailEnd | wb | paren | plain

/-- Check the token after the TLD; returns the position after the whole match. -/
def endCheck (l : Str) (pos : Nat) : TailEnd → Option Nat
  | .wb => if boundaryAt l pos then some pos else none
  | .paren => if l.get? pos == some ')' then some (pos + 1) else none
  | .plain => some pos

/-- Greedy `[A-Z|a-z]{2,}` at `j` followed by `ending`. -/
def matchTld2 (l : Str) (j : Nat) (ending : TailEnd) : Option Nat :=
  let tmax := runLen tldCls l j
  (descRange 2 tmax).findSome? fun t => endCheck l (j + t) ending

/-- Greedy `[A-Za-z0-9.-]+\.[A-Z|a-z]{2,}` at `i` followed by `ending`:
backtracks over the split of the run before the mandatory dot. -/
def matchDomTail (l : Str) (i : Nat) (ending : TailEnd) : Option Nat :=
  let kmax := runLen eCls2 l i
  (descRange 1 kmax).findSome? fun k =>
    if l.get? (i + k) == some '.' then matchTld2 l (i + k + 1) ending else none

/-- Pattern 1, `\b[A-Za-z0-9._%+-]+@[A-Za-z0-9.-]+\.[A-Z|a-z]{2,}\b`, at `i`. -/
def matchP1At (l : Str) (i : Nat) : Option Nat :=
  if ¬ boundaryAt l i then none
  else
    let k1 := runLen eCls1 l i
    if k1 = 0 then none
    else if l.get? (i + k1) == some '@' then matchDomTail l (i + k1 + 1) .wb
    else none

/-- Pattern 2, `\b[A-Za-z0-9._%+-]+\s*@\s*[A-Za-z0-9.-]+\.[A-Z|a-z]{2,}\b`, at `i`. -/
def matchP2At (l : Str) (i : Nat) : Option Nat :=
  if ¬ boundaryAt l i then none
  else
    let k1 := runLen eCls1 l i
    if k1 = 0 then none
    else
      let w1 := runLen pyWs l (i + k1)
      if l.get? (i + k1 + w1) == some '@' then
        let j := i + k1 + w1 + 1
        matchDomTail l (j + runLen pyWs l j) .wb
      else none

/-- Pattern 3, `\([A-Za-z0-9._%+-]+@[A-Za-z0-9.-]+\.[A-Z|a-z]{2,}\)`, at `i`. -/
def matchP3At (l : Str) (i : Nat) : Option Nat :=
  if l.get? i == some '(' then
    let k1 := runLen eCls1 l (i + 1)
    if k1 = 0 then none
    else if l.get? (i + 1 + k1) == some '@' then matchDomTail l (i + k1 + 2) .paren
    else none
  else none

/-- Pattern 4 (`re.I`),
`\b([A-Za-z0-9._%+-]+)\s+at\s+([A-Za-z0-9.-]+)\s+dot\s+([A-Z|a-z]{2,})\b`,
at `i`; returns (end, user, domain, tld). -/
def matchP4At (l : Str) (i : Nat) : Option (Nat × Str × Str × Str) :=
  if ¬ boundaryAt l i then none
  else
    let k1 := runLen eCls1 l i
    if k1 = 0 then none
    else
      let w1 := runLen pyWs l (i + k1)
      if w1 = 0 then none
      else
        let p := i + k1 + w1
        if ¬ litAtCI "at".data l p then none
        else
          let w2 := runLen pyWs l (p + 2)
          if w2 = 0 then none
          else
            let q := p + 2 + w2
            let k2 := runLen eCls2 l q
            if k2 = 0 then none
            else
              let w3 := runLen pyWs l (q + k2)
              if w3 = 0 then none
              else
                let r := q + k2 + w3
                if ¬ litAtCI "dot".data l r then none
                else
                  let w4 := runLen pyWs l (r + 3)
                  if w4 = 0 then none
                  else
                    let u := r + 3 + w4
                    (matchTld2 l u .wb).map fun e =>
                      (e, (l.drop i).take k1, (l.drop q).take k2, (l.drop u).take (e - u))

/-- Pattern 5 (`re.I`),
`\b([A-Za-z0-9._%+-]+)\s*\[at\]\s*([A-Za-z0-9.-]+)\s*\[dot\]\s*([A-Z|a-z]{2,})\b`,
at `i`; returns (end, user, domain, tld). -/
def matchP5At (l : Str) (i : Nat) : Option (Nat × Str × Str × Str) :=
  if ¬ boundaryAt l i then none
  else
    let k1 := runLen eCls1 l i
    if k1 = 0 then none
    else
      let p := i + k1 + runLen pyWs l (i + k1)
      if ¬ litAtCI "[at]".data l p then none
      else
        let q := p + 4 + runLen pyWs l (p + 4)
        let k2 := runLen eCls2 l q
        if k2 = 0 then none
        else
          let r := q + k2 + runLen pyWs l (q + k2)
          if ¬ litAtCI "[dot]".data l r then none
          else
            let u := r + 5 + runLen pyWs l (r + 5)
            (matchTld2 l u .wb).map fun e =>
              (e, (l.drop i).take k1, (l.drop q).take k2, (l.drop u).take (e - u))

/-- The email core `[A-Za-z0-9._%+-]+@[A-Za-z0-9.-]+\.[A-Z|a-z]{2,}` used as
the capture group of the context patterns (no word boundaries). -/
def matchEmailCoreAt (l : Str) (i : Nat) : Option Nat :=
  let k1 := runLen eCls1 l i
  if k1 = 0 then none
  else if l.get? (i + k1) == some '@' then matchDomTail l (i + k1 + 1) .plain
  else none

/-- A context pattern `(?:kw[^@]*?)(email-core)` (`re.I`) at `i`: the keyword,
then a lazy non-`@` gap (smallest first), then the email core; returns
(end, captured email text). -/
def matchContextAt (kw : Str) (l : Str) (i : Nat) : Option (Nat × Str) :=
  if ¬ litAtCI kw l i then none
  else
    let s := i + kw.length
    let gmax := runLen (fun c => c != '@') l s
    (List.range (gmax + 1)).findSome? fun g =>
      (matchEmailCoreAt l (s + g)).map fun e => (e, (l.drop (s + g)).take (e - (s + g)))

/-- `re.findall` driver: scan positions left to right; on a match, emit its
payload and continue after its end (all patterns here consume at least one
character).  `fuel` bounds the number of steps; it is called with
`l.length + 1`, enough since the position strictly increases each step. -/
def findallAux {α : Type} (m : Nat → Option (Nat × α)) : Nat → Nat → List α
  | 0, _ => []
  | fuel + 1, i =>
    match m i with
    | some (e, a) => a :: findallAux m fuel (max e (i + 1))
    | none => findallAux m fuel (i + 1)

/-- `re.findall(pattern, l)` with per-match payload. -/
def pyFindall {α : Type} (m : Str → Nat → Option (Nat × α)) (l : Str) : List α :=
  findallAux (m l) (l.length + 1) 0

/-- Wrap an end-position matcher into one that yields the matched text. -/
def withText (m : Str → Nat → Option Nat) (l : Str) (i : Nat) : Option (Nat × Str) :=
  (m l i).map fun e => (e, (l.drop i).take (e - i))

/-- `re.sub(r"\s*X\s*", "X", l)` for a single character `X` (used with `@`
and `.` by `_normalize_email`): left-to-right scan, each match being a
greedy whitespace run, the character, and a greedy trailing run. -/
def pySubWsF (t : Char) : Nat → Str → Str
  | 0, l => l
  | _, [] => []
  | fuel + 1, c :: rest =>
    if c = t then t :: pySubWsF t fuel (rest.dropWhile pyWs)
    else if pyWs c then
      match rest.dropWhile pyWs with
      | a :: rest2 =>
        if a = t then t :: pySubWsF t fuel (rest2.dropWhile pyWs)
        else c :: pySubWsF t fuel rest
      | [] => c :: pySubWsF t fuel rest
    else c :: pySubWsF t fuel rest

/-- The substitution with fuel `l.length`: every step both consumes at
least one character and one unit of fuel, so the fuel never runs out
before the input does (and at fuel 0 the remaining input is `[]`). -/
def pySubWs (t : Char) (l : Str) : Str := pySubWsF t l.length l

/-- `_normalize_email`: strip parentheses, collapse whitespace around `@`,
collapse whitespace around `.`, strip, lower. -/
def normalize_email (email : Str) : Str :=
  if email = [] then []
  else pyLower (pyStrip (pySubWs '.' (pySubWs '@' (pyStripParens email))))

/-- `_is_valid_email` (the extractor's validator). -/
def is_valid_email (email : Str) : Bool :=
  if email = [] || ¬ ('@' ∈ email) then false
  else
    let parts := pySplit '@' email
    if parts.length ≠ 2 then false
    else
      let lcl := parts.headD []
      let dom := (parts.drop 1).headD []
      if lcl = [] || lcl.length > 64 then false
      else if dom = [] || dom.length > 255 then false
      else if ¬ (lcl ≠ [] && lcl.all eCls1) then false
      else
        (List.range dom.length).any fun i =>
          dom.get? i == some '.'
          && decide (dom.take i ≠ []) && (dom.take i).all eCls2
          && (let t := dom.drop (i + 1)
              2 ≤ t.length && t.all isAlphaAZ)

/-- `_extract_obfuscated_emails`: the two group patterns, reassembling
`user@domain.tld`, validating, lower-casing. -/
def extract_obfuscated_emails (content : Str) : List Str :=
  let collect (m : Str → Nat → Option (Nat × Str × Str × Str)) (acc : List Str) : List Str :=
    (pyFindall (fun l i => (m l i).map fun r => (r.1, r.2)) content).foldl
      (fun acc ust =>
        let email := ust.1 ++ '@' :: ust.2.1 ++ '.' :: ust.2.2
        if is_valid_email email then pySetAdd acc (pyLower email) else acc) acc
  collect matchP5At (collect matchP4At [])

/-- `email_context_keywords`. -/
def email_context_keywords : List Str :=
  ["email", "contact", "reach", "get in touch", "write to", "send to",
   "mail", "message", "inquiry", "question", "support", "help"].map String.data

/-- `_extract_emails_from_context`. -/
def extract_emails_from_context (content : Str) : List Str :=
  email_context_keywords.foldl (fun acc kw =>
    (pyFindall (matchContextAt kw) content).foldl
      (fun acc email =>
        let ce := normalize_email email
        if ce ≠ [] && is_valid_email ce then pySetAdd acc ce else acc) acc) []

/-- `extract_emails_from_content`: the five patterns, then obfuscated,
then context matches, all unioned into one set. -/
def extract_emails_from_content (content : Str) : List Str :=
  if content = [] then []
  else
    let textMatchers : List (Str → Nat → Option Nat) :=
      [matchP1At, matchP2At, matchP3At,
       fun l i => (matchP4At l i).map (·.1),
       fun l i => (matchP5At l i).map (·.1)]
    let step1 := textMatchers.foldl (fun acc m =>
      (pyFindall (withText m) content).foldl
        (fun acc email =>
          let ce := normalize_email email
          if ce ≠ [] && is_valid_email ce then pySetAdd acc ce else acc) acc) []
    let step2 := (extract_obfuscated_emails content).foldl pySetAdd step1
    (extract_emails_from_context content).foldl pySetAdd step2

/-- `extract_emails_from_links`: `soup` is modelled by the list of anchor
`href` values.  `find_all` selects hrefs matching `^mailto:` case-
insensitively; the body then re-checks the prefix case-sensitively,
strips it, drops any query string, strips/lowers and validates. -/
def extract_emails_from_links (hrefs : List Str) : List Str :=
  (hrefs.filter fun h => litAtCI "mailto:".data h 0).foldl (fun acc href =>
    if startsWith "mailto:".data href then
      let email := (pySplit '?' (href.drop 7)).headD []
      let ce := pyLower (pyStrip email)
      if is_valid_email ce then pySetAdd acc ce else acc
    else acc) []

/-- Insert or overwrite a key in a Python dict (insertion-ordered). -/
def dictSet (k v : Str) (d : List (Str × Str)) : List (Str × Str) :=
  if d.any fun kv => kv.1 = k then d.map fun kv => if kv.1 = k then (k, v) else kv
  else d ++ [(k, v)]

/-- Dict lookup. -/
def dictGet (d : List (Str × Str)) (k : Str) : Option Str :=
  (d.find? fun kv => kv.1 == k).map (·.2)

/-- `extract_all_emails`: returns `(found_emails, generated_emails,
email_sources)`.  Later stages overwrite earlier source tags. -/
def extract_all_emails (content : Str) (soup : Option (List Str)) (domain : Option Str) :
    List Str × List Str × List (Str × Str) :=
  let content_emails := extract_emails_from_content content
  let found := content_emails.foldl pySetAdd []
  let sources := content_emails.foldl (fun d e => dictSet e "found".data d) []
  let fs :=
    match soup with
    | some hrefs =>
      let link_emails := extract_emails_from_links hrefs
      (link_emails.foldl pySetAdd found,
       link_emails.foldl (fun d e => dictSet e "mailto_link".data d) sources)
    | none => (found, sources)
  match domain with
  | some dom =>
    let gen := generate_common_emails dom
    (fs.1, gen.foldl pySetAdd [], gen.foldl (fun d e => dictSet e "generated".data d) fs.2)
  | none => (fs.1, [], fs.2)

/-!
## Web crawler (`src/emailscope/crawler.py`)

Network effects are oracle parameters: `fetch url` returns `none` on fetch
failure and `some hrefs` (the page's anchor `href` values) on success;
`join base href` models `urljoin`; the `robots.txt` outcome
(`_check_robots_txt`, which is `True` whenever `bypass_robots` is set) is
passed as the boolean `robotsAllowed`.  Rate limiting and user-agent
rotation have no effect on the returned value and are omitted.
-/

/-- Replace every occurrence of `pat` (nonempty) in `l` by the empty string,
scanning left to right (Python `l.replace(pat, '')`). -/
def removeAllF (pat : Str) : Nat → Str → Str
  | 0, l => l
  | fuel + 1, l =>
    match l with
    | [] => []
    | c :: rest =>
      if startsWith pat l then removeAllF pat fuel (l.drop pat.length)
      else c :: removeAllF pat fuel rest

/-- `l.replace(pat, '')` with fuel `l.length` (each step consumes at least
one character when `pat` is nonempty). -/
def removeAll (pat : Str) (l : Str) : Str := removeAllF pat l.length l

/-- Simplified `urlparse` for `scheme://netloc/path?query#fragment` shapes:
fragment at the first `#`, then scheme before the first `://`, then netloc
up to the first `/` or `?`, then path up to the first `?`, then query. -/
structure UrlParts where
  scheme : Str
  netloc : Str
  path : Str
  query : Str
  fragment : Str

/-- Index of the first occurrence of `pat` in `l`, if any. -/
def findSub (pat : Str) (l : Str) : Option Nat :=
  (List.range (l.length + 1)).find? fun i => litAt pat l i

/-- Split off the part of `l` before the first occurrence of a character
satisfying `p`, together with the rest (separator kept in the rest). -/
def splitAtFirst (p : Char → Bool) (l : Str) : Str × Str :=
  (l.takeWhile (fun c => !(p c)), l.dropWhile (fun c => !(p c)))

/-- The scheme/netloc/path/query split of the fragment-free part `pre`. -/
def parseNoFrag (pre frag : Str) : UrlParts :=
  match findSub "://".data pre with
  | some i =>
    let scheme := pre.take i
    let rest := pre.drop (i + 3)
    let (netloc, rest2) := splitAtFirst (fun c => c = '/' || c = '?') rest
    let (path, rest3) := splitAtFirst (fun c => c = '?') rest2
    let query := match rest3 with | _ :: q => q | [] => []
    ⟨scheme, netloc, path, query, frag⟩
  | none =>
    let (path, rest3) := splitAtFirst (fun c => c = '?') pre
    let query := match rest3 with | _ :: q => q | [] => []
    ⟨[], [], path, query, frag⟩

/-- The simplified `urlparse`: split off the fragment at the first `#`,
then parse the rest. -/
def pyUrlparse (url : Str) : UrlParts :=
  match findSub "#".data url with
  | some i => parseNoFrag (url.take i) (url.drop (i + 1))
  | none => parseNoFrag url []

/-- `urlparse(url).netloc` in the simplified model. -/
def pyNetloc (url : Str) : Str := (pyUrlparse url).netloc

/-- `_is_internal_link`: netloc equality. -/
def is_internal_link (url base : Str) : Bool := pyNetloc url == pyNetloc base

/-- `_clean_url`: drop the fragment, keep scheme, netloc, path and query. -/
def clean_url (url : Str) : Str :=
  let p := pyUrlparse url
  p.scheme ++ "://".data ++ p.netloc ++ p.path
    ++ (if p.query ≠ [] then '?' :: p.query else [])

/-- `_extract_links`: join each href against the base, keep internal links,
clean them, and collect into a set. -/
def extract_links (join : Str → Str → Str) (hrefs : List Str) (base : Str) : List Str :=
  hrefs.foldl (fun acc href =>
    let full := join base href
    if is_internal_link full base then pySetAdd acc (clean_url full) else acc) []

/-- `priority_keywords` of `_prioritize_links_by_relevance`. -/
def priority_keywords : List Str :=
  ["contact", "about", "team", "staff", "people", "leadership", "management",
   "support", "help", "info", "news", "press", "media", "company",
   "services", "products", "solutions", "careers", "jobs", "hiring"].map String.data

/-- `link_priority`: +10 per priority keyword in the lower-cased link,
+5 if the lower-cased link contains `/`, `/home` or `/index` as a
substring, minus `link.count('/') - 2`. -/
def link_priority (link : Str) : Int :=
  let link_lower := pyLower link
  let score : Int := priority_keywords.foldl
    (fun s kw => if containsSub kw link_lower then s + 10 else s) 0
  let score := if ["/", "/home", "/index"].any (fun sec => containsSub sec.data link_lower)
    then score + 5 else score
  let path_depth : Int := (countChar '/' link : Int) - 2
  score - path_depth

/-- The descending-score relation used for ranking. -/
def scoreGE (a b : Str) : Prop := link_priority b ≤ link_priority a

instance : DecidableRel scoreGE :=
  fun a b => inferInstanceAs (Decidable (link_priority b ≤ link_priority a))

instance : IsTotal Str scoreGE := ⟨fun a b => le_total (link_priority b) (link_priority a)⟩

instance : IsTrans Str scoreGE := ⟨fun _ _ _ h1 h2 => le_trans h2 h1⟩

/-- `_prioritize_links_by_relevance`: Python's `sorted(links,
key=link_priority, reverse=True)` is the stable descending sort by score;
`List.insertionSort` with `scoreGE` computes exactly that (its source's
unused `domain` parameter is dropped). -/
def prioritize_links_by_relevance (links : List Str) : List Str :=
  List.insertionSort scoreGE links

/-- `skip_patterns` denylist of `_filter_and_prioritize_links`. -/
def skip_patterns : List Str :=
  ["/wp-admin/", "/admin/", "/login/", "/register/", "/signup/",
   "/logout/", "/api/", "/ajax/", "/static/", "/assets/", "/css/",
   "/js/", "/images/", "/img/", "/photos/", "/videos/", "/media/",
   "/download/", "/files/", "/documents/", "/pdf/", "/doc/",
   "/search/", "/filter/", "/sort/", "/page/", "/tag/", "/category/",
   "/archive/", "/feed/", "/rss/", "/sitemap", "/robots.txt",
   "/favicon.ico", "/apple-touch-icon", "/manifest.json"].map String.data

/-- `skip_extensions` denylist. -/
def skip_extensions : List Str :=
  [".pdf", ".doc", ".docx", ".xls", ".xlsx", ".ppt", ".pptx",
   ".zip", ".rar", ".tar", ".gz", ".jpg", ".jpeg", ".png", ".gif",
   ".svg", ".ico", ".css", ".js", ".xml", ".json", ".txt"].map String.data

/-- `domain.replace('https://', '').replace('http://', '').split('/')[0]`. -/
def domainParts (domain : Str) : Str :=
  (removeAll "http://".data (removeAll "https://".data domain)).takeWhile (· ≠ '/')

/-- A link hits neither the path-pattern denylist nor the extension denylist. -/
def noDenyHit (link : Str) : Bool :=
  ¬ (skip_patterns.any fun pat => containsSub pat (pyLower link))
  && ¬ (skip_extensions.any fun ext => endsWith ext (pyLower link))

/-- Crawl state: `visited`/`crawled`/`failed` sets, the insertion-ordered
`discovered` set and the next-level frontier (`urls_to_crawl`). -/
structure CrawlSt where
  visited : List Str
  crawled : List Str
  failed : List Str
  discovered : List Str
  frontier : List Str

/-- Crawler configuration (only the fields the return value depends on). -/
structure CrawlerCfg where
  maxDepth : Nat
  maxPages : Nat

/-- The per-link filter of `_filter_and_prioritize_links`. -/
def linkPassesFilter (st : CrawlSt) (domain : Str) (link : Str) : Bool :=
  ¬ (link ∈ st.visited) && ¬ (link ∈ st.failed)
  && containsSub (domainParts domain) link
  && noDenyHit link

/-- `_filter_and_prioritize_links`. -/
def filter_and_prioritize_links (st : CrawlSt) (links : List Str) (domain : Str) : List Str :=
  prioritize_links_by_relevance (links.filter (linkPassesFilter st domain))

/-- The inner `for link in filtered_links` loop: admit a link into
`discovered` while below `max_pages`, and enqueue it for the next level
when `depth < max_depth`. -/
def addLinks (cfg : CrawlerCfg) (depth : Nat) (links : List Str) (st : CrawlSt) : CrawlSt :=
  links.foldl (fun st link =>
    if ¬ (link ∈ st.discovered) && st.discovered.length < cfg.maxPages then
      { st with
        discovered := st.discovered ++ [link],
        frontier := if depth < cfg.maxDepth then st.frontier ++ [link] else st.frontier }
    else st) st

/-- The `for url in current_batch` loop body of `crawl_company_website`. -/
def processBatch (cfg : CrawlerCfg) (fetch : Str → Option (List Str))
    (join : Str → Str → Str) (domain : Str) (depth : Nat) :
    List Str → CrawlSt → CrawlSt
  | [], st => st
  | url :: rest, st =>
    if st.discovered.length ≥ cfg.maxPages then st
    else if url ∈ st.visited then processBatch cfg fetch join domain depth rest st
    else
      match fetch url with
      | none =>
        processBatch cfg fetch join domain depth rest
          { st with failed := if url ∈ st.failed then st.failed else st.failed ++ [url] }
      | some hrefs =>
        let st1 := { st with
          visited := if url ∈ st.visited then st.visited else st.visited ++ [url],
          crawled := if url ∈ st.crawled then st.crawled else st.crawled ++ [url] }
        let page_links := extract_links join hrefs domain
        let filtered := filter_and_prioritize_links st1 page_links domain
        processBatch cfg fetch join domain depth rest (addLinks cfg depth filtered st1)

/-- The `for depth in range(max_depth + 1)` loop, with its two `break`
conditions at the top of each level. -/
def crawlLevels (cfg : CrawlerCfg) (fetch : Str → Option (List Str))
    (join : Str → Str → Str) (domain : Str) :
    List Nat → CrawlSt → CrawlSt
  | [], st => st
  | d :: ds, st =>
    if st.frontier.isEmpty || st.discovered.length ≥ cfg.maxPages then st
    else
      let batch := st.frontier
      crawlLevels cfg fetch join domain ds
        (processBatch cfg fetch join domain d batch { st with frontier := [] })

/-- `_prioritize_urls`: input-order deduplication, relevance ranking,
truncation to `max_pages`. -/
def prioritize_urls (cfg : CrawlerCfg) (urls : List Str) : List Str :=
  (prioritize_links_by_relevance (pySetList urls)).take cfg.maxPages

/-- The seed after protocol normalization at the top of
`crawl_company_website`. -/
def normalizeSeed (domain : Str) : Str :=
  if startsWith "http://".data domain || startsWith "https://".data domain then domain
  else "https://".data ++ domain

/-- `crawl_company_website`. -/
def crawl_company_website (cfg : CrawlerCfg) (robotsAllowed : Bool)
    (fetch : Str → Option (List Str)) (join : Str → Str → Str) (domain0 : Str) : List Str :=
  let domain := normalizeSeed domain0
  if ¬ robotsAllowed then []
  else
    let st0 : CrawlSt := ⟨[], [], [], [domain], [domain]⟩
    let stF := crawlLevels cfg fetch join domain (List.range (cfg.maxDepth + 1)) st0
    prioritize_urls cfg stF.discovered

/-!
## Definitions used to state the claims
-/

/-- Modelled from the spec (for comparison with `link_priority`): +10 per
priority keyword found anywhere in the lower-cased URL, +5 if and only if
the URL's path is root/home/index-like, −1 per path segment beyond the
domain root. -/
def claimed_link_score (link : Str) : Int :=
  10 * ((priority_keywords.filter fun kw => containsSub kw (pyLower link)).length : Int)
  + (if (pyUrlparse link).path ∈ ([[], "/".data, "/home".data, "/index".data] : List Str)
     then 5 else 0)
  - ((((pySplit '/' (pyUrlparse link).path).filter (· ≠ [])).length : Int))

/-- The link score as the code actually computes it, written independently
of `link_priority`'s fold: +10 per priority keyword present in the
lower-cased URL, +5 whenever the lower-cased URL contains `/`, `/home` or
`/index` as a substring (in practice, any URL containing a slash), minus
(number of `/` occurrences − 2). -/
def amended_link_score (link : Str) : Int :=
  10 * ((priority_keywords.filter fun kw => containsSub kw (pyLower link)).length : Int)
  + (if containsSub "/".data (pyLower link) || containsSub "/home".data (pyLower link)
        || containsSub "/index".data (pyLower link) then 5 else 0)
  - ((countChar '/' link : Int) - 2)

/-- The per-state crawl invariant: the discovered set never exceeds
`max(1, max_pages)` elements (the seed is admitted unconditionally), and
every discovered URL shares the seed's netloc and, unless it is the seed
itself, hits neither denylist. -/
def crawlInv (cfg : CrawlerCfg) (seed : Str) (st : CrawlSt) : Prop :=
  st.discovered.length ≤ max 1 cfg.maxPages
  ∧ ∀ u ∈ st.discovered, pyNetloc u = pyNetloc seed ∧ (u ≠ seed → noDenyHit u = true)

/-!
## Claim theorems
-/

/-- C1: on `"example.com"` the company token `"example"` has length `7 > 3`,
yet neither truncated variant `exa@example.com` nor `info@exa.com` occurs in
`generate_common_emails "example.com"` — the source builds them into a local
list but returns a different one, so they are dead code. -/
theorem c1_truncated_variants_dead_code :
    3 < ((pySplit '.' (cleanDomain "example.com".data)).headD []).length
    ∧ "exa@example.com".data ∉ generate_common_emails "example.com".data
    ∧ "info@exa.com".data ∉ generate_common_emails "example.com".data := by decide

/-- C2 counterexample: for `https://example.com/a/b` — whose path is not
root/home/index-like and contains no priority keyword — the code's score is
`3` (it still receives the +5 bonus, because the bonus fires on any URL
containing `/`), while the claimed formula gives `-2`. -/
theorem c2_counterexample :
    link_priority "https://example.com/a/b".data
        ≠ claimed_link_score "https://example.com/a/b".data
    ∧ link_priority "https://example.com/a/b".data = 3
    ∧ claimed_link_score "https://example.com/a/b".data = -2 := by decide

/-- Folding +10 over the keyword table equals 10 times the number of
keywords present. -/
theorem foldl_score_count (ll : Str) (kws : List Str) (init : Int) :
    kws.foldl (fun s kw => if containsSub kw ll then s + 10 else s) init
      = init + 10 * ((kws.filter fun kw => containsSub kw ll).length : Int) := by
  induction kws generalizing init with
  | nil => simp
  | cons k ks ih =>
    by_cases h : containsSub k ll
    · simp only [List.foldl_cons, List.filter_cons, h, if_true, ih, List.length_cons]
      push_cast
      ring
    · simp [List.foldl_cons, List.filter_cons, h, ih]

/-- C2 amended: the ranking score equals +10 per priority keyword present in
the lower-cased URL, plus 5 whenever the lower-cased URL contains `/`,
`/home` or `/index` as a substring (any URL with a slash), minus
`link.count('/') − 2`. -/
theorem c2_amended_score (link : Str) : link_priority link = amended_link_score link := by
  simp only [link_priority, amended_link_score]
  rw [foldl_score_count]
  simp only [List.any_cons, List.any_nil, Bool.or_false, Bool.or_assoc]
  split_ifs <;> omega

/-- C3 counterexample: with content `info@example.com` and target domain
`example.com`, the address `info@example.com` is both directly observed
(member of the found set) and synthesized (member of the generated set), so
the output sets are not pairwise disjoint. -/
theorem c3_counterexample :
    "info@example.com".data
        ∈ (extract_all_emails "info@example.com".data none (some "example.com".data)).1
    ∧ "info@example.com".data
        ∈ (extract_all_emails "info@example.com".data none (some "example.com".data)).2.1 := by
  decide

/-- C5 counterexample: crawling the seed `example.com/api/x` (robots allowed,
every fetch failing) returns the seed itself, which matches the denylisted
path pattern `/api/` — the seed is admitted into the result unfiltered. -/
theorem c5_counterexample :
    ∃ u ∈ crawl_company_website ⟨1, 5⟩ true (fun _ => none) (fun _ h => h)
        "example.com/api/x".data,
      skip_patterns.any (fun pat => containsSub pat (pyLower u)) = true := by decide

/-- C9 counterexample: prepending `www.` to a domain that already starts
with `www.` changes the generated list, because only one `www.` prefix is
stripped. -/
theorem c9_counterexample :
    generate_common_emails ("www.".data ++ "www.a.com".data)
      ≠ generate_common_emails "www.a.com".data := by decide

/-- Inserting into a sorted-by-score list keeps each equal-score fibre:
the inserted element lands before every element of equal score. -/
theorem filter_orderedInsert_score (x : Str) (l : List Str) (s : Int) :
    (List.orderedInsert scoreGE x l).filter (fun y => link_priority y == s)
      = (if link_priority x == s then [x] else [])
        ++ l.filter (fun y => link_priority y == s) := by
  induction l with
  | nil => by_cases hx : link_priority x = s <;> simp [List.orderedInsert, hx]
  | cons b bs ih =>
    by_cases hxb : scoreGE x b
    · by_cases hx : link_priority x = s
        <;> by_cases hb : link_priority b = s
        <;> simp [List.orderedInsert, hxb, List.filter_cons, hx, hb]
    · have hlt : link_priority x < link_priority b := by
        simpa [scoreGE, not_le] using hxb
      by_cases hx : link_priority x = s
      · have hb : ¬ link_priority b = s := by omega
        simp [List.orderedInsert, hxb, List.filter_cons, hx, hb, ih]
      · by_cases hb : link_priority b = s
          <;> simp [List.orderedInsert, hxb, List.filter_cons, hx, hb, ih]

/-- Stability of the insertion sort by score: every equal-score fibre of the
output equals that fibre of the input. -/
theorem filter_insertionSort_score (l : List Str) (s : Int) :
    (List.insertionSort scoreGE l).filter (fun y => link_priority y == s)
      = l.filter (fun y => link_priority y == s) := by
  induction l with
  | nil => rfl
  | cons a l ih =>
    simp only [List.insertionSort, filter_orderedInsert_score, ih, List.filter_cons]
    by_cases ha : link_priority a == s <;> simp [ha]

/-- C6: link prioritization is a stable descending sort — scores are
non-increasing along the output, and any two links of equal score keep
their input order (each equal-score fibre is preserved verbatim). -/
theorem c6_stable_ranking (links : List Str) :
    (prioritize_links_by_relevance links).Sorted scoreGE
    ∧ ∀ s : Int, (prioritize_links_by_relevance links).filter (fun y => link_priority y == s)
        = links.filter (fun y => link_priority y == s) :=
  ⟨List.sorted_insertionSort scoreGE links, fun s => filter_insertionSort_score links s⟩

/-- A substring test succeeds when the needle is a prefix of the haystack. -/
theorem containsSub_of_take_eq (n h : Str) (heq : h.take n.length = n) :
    containsSub n h = true := by
  unfold containsSub
  rw [List.any_eq_true]
  exact ⟨0, by simp, by simp [heq]⟩

/-- A substring test is preserved by prepending. -/
theorem containsSub_append_of (n pre rest : Str) (h : containsSub n rest = true) :
    containsSub n (pre ++ rest) = true := by
  unfold containsSub at h ⊢
  rw [List.any_eq_true] at h ⊢
  obtain ⟨i, hi, hw⟩ := h
  refine ⟨pre.length + i, ?_, ?_⟩
  · simp only [List.mem_range, List.length_append] at hi ⊢
    omega
  · rwa [List.drop_append]

/-- Every reputation score the heuristic returns is positive. -/
theorem check_domain_reputation_pos (d : Str) : 0 < (check_domain_reputation d).1 := by
  unfold check_domain_reputation
  split_ifs <;> norm_num

/-- The success-path value of `verify_email` without mock DNS: when format
passes, the domain is not disposable and the oracle reports MX present, the
result is the enhanced-confidence tuple. -/
theorem verify_email_mx_ok (mx : Str → Bool × Str) (email : Str)
    (hf : (validate_email_format email).1 = true)
    (hd : (check_disposable_email (emailDomain email)).1 = false)
    (hm : (mx (emailDomain email)).1 = true) :
    verify_email false mx email
      = (decide (calculate_enhanced_confidence true true true
            (check_domain_reputation (emailDomain email)).1 (emailDomain email) > 30),
         calculate_enhanced_confidence true true true
            (check_domain_reputation (emailDomain email)).1 (emailDomain email),
         joinComma ["Format: OK".data, "MX: OK".data, "SMTP: OK".data,
           "Reputation: ".data ++ intToStr (check_domain_reputation (emailDomain email)).1
             ++ "/100".data, "Not disposable".data]) := by
  have hrep := check_domain_reputation_pos (emailDomain email)
  simp [verify_email, hf, hd, hm, hrep]

/-- The success-path value of `verify_email` with mock DNS: the MX oracle is
never consulted and the MX stage counts as passed. -/
theorem verify_email_mock_ok (mx : Str → Bool × Str) (email : Str)
    (hf : (validate_email_format email).1 = true)
    (hd : (check_disposable_email (emailDomain email)).1 = false) :
    verify_email true mx email
      = (decide (calculate_enhanced_confidence true true true
            (check_domain_reputation (emailDomain email)).1 (emailDomain email) > 30),
         calculate_enhanced_confidence true true true
            (check_domain_reputation (emailDomain email)).1 (emailDomain email),
         joinComma ["Format: OK".data, "MX: OK".data, "SMTP: OK".data,
           "Reputation: ".data ++ intToStr (check_domain_reputation (emailDomain email)).1
             ++ "/100".data, "Not disposable".data]) := by
  have hrep := check_domain_reputation_pos (emailDomain email)
  simp [verify_email, hf, hd, hrep]

/-- C4: when format validation passes, the domain is not classified
disposable and the MX lookup succeeds, the confidence is
`clamp(20 + 30 + 20 + min(reputation, 30) + reputable-bonus − length-penalty,
0, 100)` and validity is `format ∧ MX ∧ confidence > 30 ∧ ¬disposable`. -/
theorem c4_confidence_formula (mx : Str → Bool × Str) (email : Str)
    (hf : (validate_email_format email).1 = true)
    (hd : (check_disposable_email (emailDomain email)).1 = false)
    (hm : (mx (emailDomain email)).1 = true) :
    (verify_email false mx email).2.1
      = min (max (20 + 30 + 20 + min (check_domain_reputation (emailDomain email)).1 30
          + (if emailDomain email ∈ reputable_domains then 10 else 0)
          - (if (emailDomain email).length < 5 || (emailDomain email).length > 30
             then 10 else 0)) 0) 100
    ∧ (verify_email false mx email).1
      = ((validate_email_format email).1 && (mx (emailDomain email)).1
          && decide ((verify_email false mx email).2.1 > 30)
          && !(check_disposable_email (emailDomain email)).1) := by
  rw [verify_email_mx_ok mx email hf hd hm]
  constructor
  · norm_num [calculate_enhanced_confidence]
    split_ifs <;> omega
  · simp [hf, hd, hm]


/-- C4 witness: `info@gmail.com` with an always-true MX oracle satisfies the
hypotheses and gets confidence 100. -/
theorem c4_confidence_formula_witness :
    (validate_email_format "info@gmail.com".data).1 = true
    ∧ (check_disposable_email (emailDomain "info@gmail.com".data)).1 = false
    ∧ ((fun _ => (true, [])) (emailDomain "info@gmail.com".data) : Bool × Str).1 = true
    ∧ (verify_email false (fun _ => (true, [])) "info@gmail.com".data).2.1 = 100 := by
  refine ⟨by decide, by decide, rfl, ?_⟩
  have h := c4_confidence_formula (fun _ => (true, [])) "info@gmail.com".data
    (by decide) (by decide) (by decide)
  rw [h.1]
  decide

/-- C8: a format-valid address whose domain the disposable check flags is
rejected with confidence 10 and a reason that mentions "Disposable",
independently of the DNS mode and oracle. -/
theorem c8_disposable_rejected (mock_dns : Bool) (mx : Str → Bool × Str) (email : Str)
    (hf : (validate_email_format email).1 = true)
    (hd : (check_disposable_email (emailDomain email)).1 = true) :
    verify_email mock_dns mx email
      = (false, 10, "Disposable email: ".data ++ (check_disposable_email (emailDomain email)).2)
    ∧ containsSub "Disposable".data (verify_email mock_dns mx email).2.2 = true := by
  have h1 : verify_email mock_dns mx email
      = (false, 10,
         "Disposable email: ".data ++ (check_disposable_email (emailDomain email)).2) := by
    simp [verify_email, hf, hd]
  refine ⟨h1, ?_⟩
  rw [h1]
  exact containsSub_of_take_eq _ _ (by rw [List.take_append_of_le_length (by decide)]; decide)

/-- C8 witness: `x@10minutemail.com` is format-valid, in the disposable
denylist, and rejected with confidence 10 and a disposable reason. -/
theorem c8_disposable_rejected_witness :
    (validate_email_format "x@10minutemail.com".data).1 = true
    ∧ (check_disposable_email (emailDomain "x@10minutemail.com".data)).1 = true
    ∧ (verify_email false (fun _ => (true, [])) "x@10minutemail.com".data).1 = false
    ∧ (verify_email false (fun _ => (true, [])) "x@10minutemail.com".data).2.1 = 10
    ∧ containsSub "Disposable".data
        (verify_email false (fun _ => (true, [])) "x@10minutemail.com".data).2.2 = true := by
  have h := c8_disposable_rejected false (fun _ => (true, [])) "x@10minutemail.com".data
    (by decide) (by decide)
  exact ⟨by decide, by decide, by rw [h.1], by rw [h.1], h.2⟩

/-- C10: with mock DNS the verifier never consults the MX oracle — any two
oracles yield identical results, the run coincides with a non-mock run whose
MX lookup trivially succeeds, and whenever format passes and the domain is
not disposable the reason records the MX stage as passed. -/
theorem c10_mock_dns_pure (mx1 mx2 : Str → Bool × Str) (email : Str) :
    verify_email true mx1 email = verify_email true mx2 email
    ∧ verify_email true mx1 email
        = verify_email false (fun _ => (true, "Mock DNS - assumed valid".data)) email
    ∧ ((validate_email_format email).1 = true →
        (check_disposable_email (emailDomain email)).1 = false →
        containsSub "MX: OK".data (verify_email true mx1 email).2.2 = true) := by
  refine ⟨by simp [verify_email], by simp [verify_email], fun hf hd => ?_⟩
  rw [verify_email_mock_ok mx1 email hf hd]
  show containsSub "MX: OK".data
      (joinComma ["Format: OK".data, "MX: OK".data, "SMTP: OK".data,
        "Reputation: ".data ++ intToStr (check_domain_reputation (emailDomain email)).1
          ++ "/100".data, "Not disposable".data]) = true
  simp only [joinComma]
  rw [show ("Format: OK".data ++ ", ".data ++ ("MX: OK".data ++ ", ".data
      ++ ("SMTP: OK".data ++ ", ".data
      ++ ("Reputation: ".data ++ intToStr (check_domain_reputation (emailDomain email)).1
          ++ "/100".data ++ ", ".data ++ "Not disposable".data))))
    = "Format: OK, ".data ++ ("MX: OK".data ++ (", ".data
      ++ ("SMTP: OK".data ++ ", ".data
      ++ ("Reputation: ".data ++ intToStr (check_domain_reputation (emailDomain email)).1
          ++ "/100".data ++ ", ".data ++ "Not disposable".data)))) by simp]
  exact containsSub_append_of _ _ _
    (containsSub_of_take_eq _ _ (by rw [List.take_append_of_le_length (by decide)]; decide))

/-- C10 witness: instantiating the purity theorem at `info@gmail.com` with
two different oracles. -/
theorem c10_mock_dns_pure_witness :
    verify_email true (fun _ => (true, [])) "info@gmail.com".data
      = verify_email true (fun _ => (false, "no".data)) "info@gmail.com".data
    ∧ containsSub "MX: OK".data
        (verify_email true (fun _ => (true, [])) "info@gmail.com".data).2.2 = true := by
  have h := c10_mock_dns_pure (fun _ => (true, [])) (fun _ => (false, "no".data))
    "info@gmail.com".data
  exact ⟨h.1, h.2.2 (by decide) (by decide)⟩

/-- Lower-casing a character twice is the same as once. -/
theorem pyToLower_idem (c : Char) : pyToLower (pyToLower c) = pyToLower c := by
  have key : ∀ p ∈ upperPairs, pyToLower p.2 = p.2 := by decide
  rcases hf : upperPairs.find? (fun p => p.1 = c) with _ | p
  · have h1 : pyToLower c = c := by unfold pyToLower; rw [hf]
    rw [h1]; exact h1
  · have h1 : pyToLower c = p.2 := by unfold pyToLower; rw [hf]
    rw [h1]; exact key p (List.mem_of_find?_eq_some hf)

/-- Lower-casing never changes whitespace-ness. -/
theorem pyWs_pyToLower (c : Char) : pyWs (pyToLower c) = pyWs c := by
  have key : ∀ p ∈ upperPairs, pyWs p.1 = false ∧ pyWs p.2 = false := by decide
  rcases hf : upperPairs.find? (fun p => p.1 = c) with _ | p
  · have h1 : pyToLower c = c := by unfold pyToLower; rw [hf]
    rw [h1]
  · have h1 : pyToLower c = p.2 := by unfold pyToLower; rw [hf]
    have hc : p.1 = c := by simpa using List.find?_some hf
    obtain ⟨k1, k2⟩ := key p (List.mem_of_find?_eq_some hf)
    rw [h1, k2, ← hc, k1]

/-- Lower-casing never changes parenthesis-ness. -/
theorem isParenCh_pyToLower (c : Char) : isParenCh (pyToLower c) = isParenCh c := by
  have key : ∀ p ∈ upperPairs, isParenCh p.1 = false ∧ isParenCh p.2 = false := by decide
  rcases hf : upperPairs.find? (fun p => p.1 = c) with _ | p
  · have h1 : pyToLower c = c := by unfold pyToLower; rw [hf]
    rw [h1]
  · have h1 : pyToLower c = p.2 := by unfold pyToLower; rw [hf]
    have hc : p.1 = c := by simpa using List.find?_some hf
    obtain ⟨k1, k2⟩ := key p (List.mem_of_find?_eq_some hf)
    rw [h1, k2, ← hc, k1]

/-- Lower-casing a string twice is the same as once. -/
theorem pyLower_idem (l : Str) : pyLower (pyLower l) = pyLower l := by
  simp only [pyLower, List.map_map]
  exact List.map_congr_left fun a _ => pyToLower_idem a

/-- A list all of whose elements fail `p` is unchanged by `dropWhile p`. -/
theorem dropWhile_all_neg (p : Char → Bool) (l : Str)
    (h : l.all (fun c => !p c) = true) : l.dropWhile p = l := by
  cases l with
  | nil => rfl
  | cons c rest =>
    simp only [List.all_cons, Bool.and_eq_true, Bool.not_eq_true'] at h
    exact List.dropWhile_cons_of_neg (by simp [h.1])

/-- Dropping a satisfying prefix twice is the same as once. -/
theorem dropWhile_idem (p : Char → Bool) (l : Str) :
    (l.dropWhile p).dropWhile p = l.dropWhile p := by
  induction l with
  | nil => rfl
  | cons c rest ih =>
    by_cases hc : p c
    · simp [List.dropWhile_cons, hc, ih]
    · simp [List.dropWhile_cons, hc]

/-- Mirror of `dropWhile_idem` at the right end. -/
theorem rDropWhile_idem (p : Char → Bool) (l : Str) :
    rDropWhile p (rDropWhile p l) = rDropWhile p l := by
  simp only [rDropWhile, List.reverse_reverse]
  rw [dropWhile_idem]

/-- `rDropWhile` yields a prefix: the dropped suffix can be recovered. -/
theorem rDropWhile_append (p : Char → Bool) (l : Str) :
    ∃ t, l = rDropWhile p l ++ t := by
  refine ⟨(l.reverse.takeWhile p).reverse, ?_⟩
  rw [rDropWhile, ← List.reverse_append, List.takeWhile_append_dropWhile, List.reverse_reverse]

/-- The head left by `dropWhile p` fails `p`. -/
theorem dropWhile_head_neg (p : Char → Bool) (l : Str) (c : Char) (t : Str)
    (h : l.dropWhile p = c :: t) : p c = false := by
  induction l with
  | nil => simp at h
  | cons a rest ih =>
    by_cases ha : p a
    · rw [List.dropWhile_cons_of_pos ha] at h
      exact ih h
    · rw [List.dropWhile_cons_of_neg ha] at h
      cases h
      simpa using ha

/-- Stripping both ends is idempotent. -/
theorem stripEnds_idem (p : Char → Bool) (l : Str) :
    rDropWhile p ((rDropWhile p (l.dropWhile p)).dropWhile p)
      = rDropWhile p (l.dropWhile p) := by
  set m := l.dropWhile p with hm
  have hdw : (rDropWhile p m).dropWhile p = rDropWhile p m := by
    cases hx : rDropWhile p m with
    | nil => rfl
    | cons a x' =>
      obtain ⟨t, ht⟩ := rDropWhile_append p m
      rw [hx] at ht
      have hne : p a = false := by
        rcases hm2 : m with _ | ⟨c, m'⟩
        · rw [hm2] at ht; simp at ht
        · have hc : p c = false := dropWhile_head_neg p l c m' (hm ▸ hm2)
          rw [hm2] at ht
          have : a = c := by
            have := congrArg (List.head? ·) ht
            simpa using this.symm
          rwa [this]
      exact List.dropWhile_cons_of_neg (by simp [hne])
  rw [hdw, rDropWhile_idem]

/-- `pyStripParens` is idempotent. -/
theorem pyStripParens_idem (l : Str) :
    pyStripParens (pyStripParens l) = pyStripParens l := by
  unfold pyStripParens
  have h1 : (rDropWhile isParenCh (l.dropWhile isParenCh)).dropWhile isParenCh
      = rDropWhile isParenCh (l.dropWhile isParenCh) := by
    have := stripEnds_idem isParenCh l
    cases hx : rDropWhile isParenCh (l.dropWhile isParenCh) with
    | nil => rfl
    | cons a x' =>
      obtain ⟨t, ht⟩ := rDropWhile_append isParenCh (l.dropWhile isParenCh)
      rw [hx] at ht
      have hne : isParenCh a = false := by
        rcases hm2 : l.dropWhile isParenCh with _ | ⟨c, m'⟩
        · rw [hm2] at ht; simp at ht
        · have hc : isParenCh c = false := dropWhile_head_neg isParenCh l c m' hm2
          rw [hm2] at ht
          have hac : a = c := by
            have := congrArg (List.head? ·) ht
            simpa using this.symm
          rwa [hac]
      exact List.dropWhile_cons_of_neg (by simp [hne])
  rw [h1, rDropWhile_idem]

/-- `dropWhile isParenCh` commutes with lower-casing. -/
theorem dropWhile_paren_map (l : Str) :
    (pyLower l).dropWhile isParenCh = pyLower (l.dropWhile isParenCh) := by
  simp only [pyLower]
  rw [List.dropWhile_map]
  congr 1
  rw [show (isParenCh ∘ pyToLower) = isParenCh from funext fun c => isParenCh_pyToLower c]

/-- `pyStripParens` commutes with lower-casing. -/
theorem pyStripParens_pyLower (l : Str) :
    pyStripParens (pyLower l) = pyLower (pyStripParens l) := by
  unfold pyStripParens rDropWhile
  rw [dropWhile_paren_map]
  simp only [pyLower]
  rw [← List.map_reverse, List.dropWhile_map, ← List.map_reverse]
  congr 2
  rw [show (isParenCh ∘ pyToLower) = isParenCh from funext fun c => isParenCh_pyToLower c]

/-- Whitespace-freeness survives `pyStripParens`. -/
theorem all_pyStripParens (q : Char → Bool) (l : Str) (h : l.all q = true) :
    (pyStripParens l).all q = true := by
  rw [List.all_eq_true] at h ⊢
  intro x hx
  apply h
  unfold pyStripParens rDropWhile at hx
  have h1 : x ∈ (l.dropWhile isParenCh).reverse.dropWhile isParenCh := by
    simpa using hx
  have h2 : x ∈ (l.dropWhile isParenCh).reverse :=
    (List.dropWhile_sublist isParenCh).subset h1
  have h3 : x ∈ l.dropWhile isParenCh := by simpa using h2
  exact (List.dropWhile_sublist isParenCh).subset h3

/-- Whitespace-freeness survives lower-casing. -/
theorem all_noWs_pyLower (l : Str) (h : l.all (fun c => !pyWs c) = true) :
    (pyLower l).all (fun c => !pyWs c) = true := by
  rw [List.all_eq_true] at h ⊢
  intro x hx
  simp only [pyLower, List.mem_map] at hx
  obtain ⟨a, ha, rfl⟩ := hx
  simpa [pyWs_pyToLower] using h a ha

/-- On a whitespace-free string the substitution is the identity (any fuel). -/
theorem pySubWsF_noWs (t : Char) (fuel : Nat) :
    ∀ l : Str, l.all (fun c => !pyWs c) = true → pySubWsF t fuel l = l := by
  induction fuel with
  | zero => intro l _; cases l <;> rfl
  | succ n ih =>
    intro l h
    cases l with
    | nil => rfl
    | cons c rest =>
      simp only [List.all_cons, Bool.and_eq_true, Bool.not_eq_true'] at h
      have hdw : rest.dropWhile pyWs = rest :=
        dropWhile_all_neg pyWs rest (by simpa [List.all_eq_true, Bool.not_eq_true'] using h.2)
      by_cases hct : c = t
      · simp only [pySubWsF, if_pos hct, hdw,
          ih rest (by simpa [List.all_eq_true, Bool.not_eq_true'] using h.2)]
        rw [hct]
      · simp only [pySubWsF, if_neg hct, h.1, Bool.false_eq_true, if_false,
          ih rest (by simpa [List.all_eq_true, Bool.not_eq_true'] using h.2)]

/-- On a whitespace-free string `pySubWs` is the identity. -/
theorem pySubWs_noWs (t : Char) (l : Str) (h : l.all (fun c => !pyWs c) = true) :
    pySubWs t l = l := pySubWsF_noWs t l.length l h

/-- On a whitespace-free string `pyStrip` is the identity. -/
theorem pyStrip_noWs (l : Str) (h : l.all (fun c => !pyWs c) = true) : pyStrip l = l := by
  have hrev : l.reverse.all (fun c => !pyWs c) = true := by
    rw [List.all_eq_true] at h ⊢
    intro x hx
    exact h x (by simpa using hx)
  unfold pyStrip rDropWhile
  rw [dropWhile_all_neg pyWs l h, dropWhile_all_neg pyWs l.reverse hrev, List.reverse_reverse]

/-- On whitespace-free input, `_normalize_email` is strip-parens then lower. -/
theorem normalize_email_noWs (l : Str) (h : l.all (fun c => !pyWs c) = true) :
    normalize_email l = pyLower (pyStripParens l) := by
  unfold normalize_email
  by_cases hl : l = []
  · subst hl; rfl
  · rw [if_neg hl]
    have h1 : (pyStripParens l).all (fun c => !pyWs c) = true := all_pyStripParens _ l h
    rw [pySubWs_noWs '@' _ h1, pySubWs_noWs '.' _ h1, pyStrip_noWs _ h1]

/-- C7 counterexample: on the input `" (a@b.com) "` the first pass strips
the outer whitespace and exposes the parentheses, which only the second
pass removes — normalization is not idempotent on it. -/
theorem c7_counterexample :
    normalize_email (normalize_email " (a@b.com) ".data)
      ≠ normalize_email " (a@b.com) ".data := by decide

/-- C7 amended: `_normalize_email` is idempotent on every input containing
no whitespace (whitespace removal ahead of the end-parenthesis strip is what
breaks the general claim). -/
theorem c7_amended_idempotent (l : Str) (h : l.all (fun c => !pyWs c) = true) :
    normalize_email (normalize_email l) = normalize_email l := by
  rw [normalize_email_noWs l h]
  have h2 : (pyLower (pyStripParens l)).all (fun c => !pyWs c) = true :=
    all_noWs_pyLower _ (all_pyStripParens _ l h)
  rw [normalize_email_noWs _ h2, pyStripParens_pyLower, pyStripParens_idem, pyLower_idem]

/-- C7 witness: a concrete whitespace-free address. -/
theorem c7_amended_idempotent_witness :
    ("(A@B.Com)".data).all (fun c => !pyWs c) = true
    ∧ normalize_email (normalize_email "(A@B.Com)".data) = normalize_email "(A@B.Com)".data :=
  ⟨by decide, c7_amended_idempotent "(A@B.Com)".data (by decide)⟩

/-- Lower-casing distributes over append. -/
theorem pyLower_append (a b : Str) : pyLower (a ++ b) = pyLower a ++ pyLower b :=
  List.map_append pyToLower a b

/-- Dropping a satisfying prefix of `u ++ v` when `v` starts unsatisfied:
the drop never crosses into `v`. -/
theorem dropWhile_append_fixed (p : Char → Bool) (u v : Str)
    (hv : v.dropWhile p = v) : (u ++ v).dropWhile p = u.dropWhile p ++ v := by
  induction u with
  | nil => simpa using hv
  | cons c u' ih =>
    by_cases hc : p c
    · simpa [List.dropWhile_cons, hc] using ih
    · simp [List.dropWhile_cons, hc]

/-- Stripping `"www." ++ z`: the left end is fixed, the right end strips. -/
theorem pyStrip_www (z : Str) :
    pyStrip ("www.".data ++ z) = "www.".data ++ rDropWhile pyWs z := by
  unfold pyStrip
  have h1 : ("www.".data ++ z).dropWhile pyWs = "www.".data ++ z :=
    List.dropWhile_cons_of_neg (by decide)
  rw [h1]
  unfold rDropWhile
  rw [List.reverse_append, dropWhile_append_fixed pyWs z.reverse "www.".data.reverse (by decide),
    List.reverse_append, List.reverse_reverse]

/-- `cleanDomain` ignores a prepended `www.` when the cleaned input does not
itself begin with `www.` and the input has no leading whitespace. -/
theorem cleanDomain_www (d : Str) (h1 : d.dropWhile pyWs = d)
    (h2 : startsWith "www.".data (pyStrip (pyLower d)) = false) :
    cleanDomain ("www.".data ++ d) = cleanDomain d := by
  have hlow : pyLower ("www.".data ++ d) = "www.".data ++ pyLower d := by
    rw [pyLower_append]
    rfl
  have hldw : (pyLower d).dropWhile pyWs = pyLower d := by
    simp only [pyLower]
    rw [List.dropWhile_map,
      show (pyWs ∘ pyToLower) = pyWs from funext fun c => pyWs_pyToLower c, h1]
  have hstrip : pyStrip (pyLower ("www.".data ++ d)) = "www.".data ++ pyStrip (pyLower d) := by
    rw [hlow, pyStrip_www]
    unfold pyStrip
    rw [hldw]
  have hsw : startsWith "www.".data ("www.".data ++ pyStrip (pyLower d)) = true := by
    unfold startsWith
    rw [show ("www.".data : Str).length = "www.".data.length from rfl, List.take_left]
    simp
  simp only [cleanDomain]
  rw [hstrip, hsw, h2]
  simp only [if_true, Bool.false_eq_true, if_false]
  rw [show (4 : Nat) = ("www.".data : Str).length from rfl, List.drop_left]

/-- `cleanDomain` is insensitive to pre-lower-casing. -/
theorem cleanDomain_pyLower (d : Str) : cleanDomain (pyLower d) = cleanDomain d := by
  unfold cleanDomain
  rw [pyLower_idem]

/-- C9 amended: candidate generation is invariant under a prepended `www.`
whenever the domain has no leading whitespace and its cleaned form does not
already begin with `www.`; it is invariant under lower-casing the input
unconditionally. -/
theorem c9_amended_invariance (d : Str) (h1 : d.dropWhile pyWs = d)
    (h2 : startsWith "www.".data (pyStrip (pyLower d)) = false) :
    generate_common_emails ("www.".data ++ d) = generate_common_emails d
    ∧ ∀ d' : Str, generate_common_emails d' = generate_common_emails (pyLower d') := by
  constructor
  · unfold generate_common_emails
    rw [cleanDomain_www d h1 h2]
  · intro d'
    unfold generate_common_emails
    rw [cleanDomain_pyLower d']

/-- C9 witness: `a.com` satisfies both side conditions. -/
theorem c9_amended_invariance_witness :
    ("a.com".data).dropWhile pyWs = "a.com".data
    ∧ startsWith "www.".data (pyStrip (pyLower "a.com".data)) = false
    ∧ generate_common_emails ("www.".data ++ "a.com".data)
        = generate_common_emails "a.com".data :=
  ⟨by decide, by decide,
   (c9_amended_invariance "a.com".data (by decide) (by decide)).1⟩

/-- Lookup past a non-matching head entry. -/
theorem dictGet_cons_ne (a b e : Str) (d : List (Str × Str)) (h : a ≠ e) :
    dictGet ((a, b) :: d) e = dictGet d e := by
  have hbeq : (a == e) = false := beq_eq_false_iff_ne.mpr h
  simp [dictGet, List.find?_cons, hbeq]

/-- Lookup at a matching head entry. -/
theorem dictGet_cons_self (e b : Str) (d : List (Str × Str)) :
    dictGet ((e, b) :: d) e = some b := by
  simp [dictGet, List.find?_cons]

/-- Updating the value stored at key `k` leaves other lookups unchanged. -/
theorem dictGet_map_update_ne (k v e : Str) (d : List (Str × Str)) (hne : e ≠ k) :
    dictGet (d.map fun kv => if kv.1 = k then (k, v) else kv) e = dictGet d e := by
  induction d with
  | nil => rfl
  | cons p rest ih =>
    obtain ⟨a, b⟩ := p
    by_cases hak : a = k
    · subst hak
      simp only [List.map_cons]
      simp only [if_true]
      rw [dictGet_cons_ne _ _ _ _ (fun h => hne h.symm),
        dictGet_cons_ne _ _ _ _ (fun h => hne h.symm), ih]
    · simp only [List.map_cons, if_neg hak]
      by_cases hae : a = e
      · subst hae
        rw [dictGet_cons_self, dictGet_cons_self]
      · rw [dictGet_cons_ne _ _ _ _ hae, dictGet_cons_ne _ _ _ _ hae, ih]

/-- Updating the value at a present key makes its lookup the new value. -/
theorem dictGet_map_update_self (k v : Str) (d : List (Str × Str))
    (h : d.any (fun kv => kv.1 = k) = true) :
    dictGet (d.map fun kv => if kv.1 = k then (k, v) else kv) k = some v := by
  induction d with
  | nil => simp at h
  | cons p rest ih =>
    obtain ⟨a, b⟩ := p
    by_cases hak : a = k
    · subst hak
      simp only [List.map_cons]
      simp only [if_true]
      rw [dictGet_cons_self]
    · simp only [List.any_cons, Bool.or_eq_true, decide_eq_true_eq] at h
      simp only [List.map_cons, if_neg hak]
      rw [dictGet_cons_ne _ _ _ _ hak]
      exact ih (h.resolve_left hak)

/-- A key reported absent by `any` looks up to `none`. -/
theorem dictGet_none_of_any_false (k : Str) (d : List (Str × Str))
    (h : d.any (fun kv => kv.1 = k) = false) : dictGet d k = none := by
  induction d with
  | nil => rfl
  | cons p rest ih =>
    obtain ⟨a, b⟩ := p
    simp only [List.any_cons, Bool.or_eq_false_iff, decide_eq_false_iff_not] at h
    rw [dictGet_cons_ne _ _ _ _ h.1]
    exact ih h.2

/-- The dict-update law: `dictSet` overwrites exactly the chosen key. -/
theorem dictGet_dictSet (k v e : Str) (d : List (Str × Str)) :
    dictGet (dictSet k v d) e = if e = k then some v else dictGet d e := by
  unfold dictSet
  by_cases hany : (d.any fun kv => kv.1 = k) = true
  · rw [if_pos hany]
    by_cases he : e = k
    · subst he
      rw [if_pos rfl]
      exact dictGet_map_update_self e v d hany
    · rw [if_neg he]
      exact dictGet_map_update_ne k v e d he
  · rw [if_neg hany]
    have hfalse : (d.any fun kv => kv.1 = k) = false := by
      cases hb : d.any fun kv => kv.1 = k
      · rfl
      · exact absurd hb hany
    by_cases he : e = k
    · subst he
      have hnone : dictGet d e = none := dictGet_none_of_any_false e d hfalse
      have hfind : d.find? (fun kv => kv.1 == e) = none := by
        cases hf : d.find? (fun kv => kv.1 == e) with
        | none => rfl
        | some x =>
          unfold dictGet at hnone
          rw [hf] at hnone
          simp at hnone
      unfold dictGet
      rw [List.find?_append, hfind, if_pos rfl]
      simp [List.find?_cons]
    · have hke : (k == e) = false := beq_eq_false_iff_ne.mpr fun h => he h.symm
      rw [if_neg he]
      unfold dictGet
      rw [List.find?_append]
      have hsingle : ([(k, v)] : List (Str × Str)).find? (fun kv => kv.1 == e) = none := by
        simp [List.find?_cons, hke]
      rw [hsingle, Option.or_none]

/-- Writing one constant tag for every key in `ks` (in order) makes the
lookup of `e` that tag iff `e ∈ ks`, and leaves other lookups alone. -/
theorem dictGet_foldl_setConst (v : Str) (ks : List Str) (d0 : List (Str × Str)) (e : Str) :
    dictGet (ks.foldl (fun d x => dictSet x v d) d0) e
      = if e ∈ ks then some v else dictGet d0 e := by
  induction ks generalizing d0 with
  | nil => simp
  | cons k ks ih =>
    simp only [List.foldl_cons, ih, dictGet_dictSet]
    by_cases hek : e = k <;> by_cases heks : e ∈ ks <;> simp [hek, heks]

/-- Membership in a fold of Python-set insertions. -/
theorem mem_foldl_pySetAdd (l : List Str) (acc : List Str) (x : Str) :
    x ∈ l.foldl pySetAdd acc ↔ x ∈ acc ∨ x ∈ l := by
  induction l generalizing acc with
  | nil => simp
  | cons a l ih =>
    simp only [List.foldl_cons, ih, pySetAdd, List.mem_cons]
    by_cases ha : a ∈ acc <;> by_cases hxa : x = a <;>
      simp [ha, hxa, List.mem_append]

/-- C3 amended: the three recognition stages are merged so that `found` and
`generated` may overlap; each address carries exactly one source tag,
decided by the *last* stage that produced it (`generated` over
`mailto_link` over `found`). -/
theorem c3_amended_source_tags (content : Str) (hrefs : List Str) (dom e : Str) :
    (e ∈ (extract_all_emails content (some hrefs) (some dom)).2.1
        ↔ e ∈ generate_common_emails dom)
    ∧ (e ∈ (extract_all_emails content (some hrefs) (some dom)).1
        ↔ e ∈ extract_emails_from_content content ∨ e ∈ extract_emails_from_links hrefs)
    ∧ (e ∈ generate_common_emails dom →
        dictGet (extract_all_emails content (some hrefs) (some dom)).2.2 e
          = some "generated".data)
    ∧ (e ∉ generate_common_emails dom → e ∈ extract_emails_from_links hrefs →
        dictGet (extract_all_emails content (some hrefs) (some dom)).2.2 e
          = some "mailto_link".data)
    ∧ (e ∉ generate_common_emails dom → e ∉ extract_emails_from_links hrefs →
        e ∈ extract_emails_from_content content →
        dictGet (extract_all_emails content (some hrefs) (some dom)).2.2 e
          = some "found".data) := by
  simp only [extract_all_emails]
  refine ⟨?_, ?_, ?_, ?_, ?_⟩
  · rw [mem_foldl_pySetAdd]
    simp
  · rw [mem_foldl_pySetAdd, mem_foldl_pySetAdd]
    simp
  · intro hg
    rw [dictGet_foldl_setConst, if_pos hg]
  · intro hg hl
    rw [dictGet_foldl_setConst, if_neg hg, dictGet_foldl_setConst, if_pos hl]
  · intro hg hl hc
    rw [dictGet_foldl_setConst, if_neg hg, dictGet_foldl_setConst, if_neg hl,
      dictGet_foldl_setConst, if_pos hc]

/-- C3 witness: with empty content and no anchors, `info@example.com` is
generated for `example.com` and tagged `generated`. -/
theorem c3_amended_source_tags_witness :
    "info@example.com".data ∈ generate_common_emails "example.com".data
    ∧ dictGet (extract_all_emails [] (some []) (some "example.com".data)).2.2
        "info@example.com".data = some "generated".data :=
  ⟨by decide,
   (c3_amended_source_tags [] [] "example.com".data "info@example.com".data).2.2.1
     (by decide)⟩

/-- A one-character literal matches at `i` exactly when that character is
at position `i`. -/
theorem litAt_singleton (c : Char) (l : Str) (i : Nat) :
    litAt [c] l i = true ↔ l.get? i = some c := by
  unfold litAt
  rw [List.get?_eq_getElem?, ← List.head?_drop]
  cases hd : l.drop i with
  | nil => simp
  | cons a t => simp

/-- `find?` over `range n` returns the least index below `n` satisfying `p`. -/
theorem find?_range_eq_some :
    ∀ (n : Nat) (p : Nat → Bool) (k : Nat), k < n → p k = true → (∀ j < k, p j = false) →
      (List.range n).find? p = some k := by
  intro n
  induction n with
  | zero => intro p k hk _ _; omega
  | succ m ih =>
    intro p k hk hpk hmin
    rw [List.range_succ_eq_map, List.find?_cons]
    cases k with
    | zero => rw [hpk]
    | succ k' =>
      rw [hmin 0 (Nat.succ_pos k'), List.find?_map]
      have harg : (List.range m).find? (p ∘ Nat.succ) = some k' :=
        ih (p ∘ Nat.succ) k' (by omega) hpk (fun j hj => hmin (j + 1) (by omega))
      rw [harg]
      rfl

/-- Conversely, `find?` over `range` yields a satisfying least witness. -/
theorem find?_range_some_spec :
    ∀ (n : Nat) (p : Nat → Bool) (k : Nat), (List.range n).find? p = some k →
      p k = true ∧ ∀ j < k, p j = false := by
  intro n
  induction n with
  | zero => intro p k h; simp [List.range_zero] at h
  | succ m ih =>
    intro p k h
    rw [List.range_succ_eq_map, List.find?_cons] at h
    cases h0 : p 0 with
    | true =>
      rw [h0] at h
      simp only [Option.some.injEq] at h
      subst h
      exact ⟨h0, fun j hj => by omega⟩
    | false =>
      rw [h0, List.find?_map] at h
      cases hf : (List.range m).find? (p ∘ Nat.succ) with
      | none => rw [hf] at h; simp at h
      | some k' =>
        rw [hf] at h
        have hk : k = k' + 1 := by simpa using h.symm
        obtain ⟨hp', hmin'⟩ := ih (p ∘ Nat.succ) k' hf
        simp only [Function.comp] at hp' hmin'
        subst hk
        refine ⟨hp', fun j hj => ?_⟩
        cases j with
        | zero => exact h0
        | succ j' => exact hmin' j' (by omega)

/-- No occurrence of the single character `c` means `findSub [c] = none`. -/
theorem findSub_single_none (c : Char) (l : Str) (h : c ∉ l) :
    findSub [c] l = none := by
  unfold findSub
  rw [List.find?_eq_none]
  intro i _
  rw [Bool.not_eq_true]
  cases hb : litAt [c] l i
  · rfl
  · exact absurd (List.get?_mem ((litAt_singleton c l i).mp hb)) h

/-- Specification extracted from a successful `findSub`. -/
theorem findSub_some_spec (pat l : Str) (k : Nat) (h : findSub pat l = some k) :
    litAt pat l k = true ∧ ∀ j < k, litAt pat l j = false := by
  unfold findSub at h
  exact find?_range_some_spec (l.length + 1) (fun i => litAt pat l i) k h

/-- Build a successful `findSub` from a least witness. -/
theorem findSub_eq_some (pat l : Str) (k : Nat) (hk : k ≤ l.length)
    (hpk : litAt pat l k = true) (hmin : ∀ j < k, litAt pat l j = false) :
    findSub pat l = some k :=
  find?_range_eq_some (l.length + 1) (fun i => litAt pat l i) k (by omega) hpk hmin

/-- All-satisfying prefixes pass through `takeWhile` of an append. -/
theorem takeWhile_append_all (p : Char → Bool) (u v : Str) (hu : u.all p = true) :
    (u ++ v).takeWhile p = u ++ v.takeWhile p := by
  induction u with
  | nil => rfl
  | cons c u' ih =>
    simp only [List.all_cons, Bool.and_eq_true] at hu
    simp [List.takeWhile_cons, hu.1, ih hu.2]

/-- Matching inside the prefix of an append is matching in the prefix. -/
theorem litAt_append_left (pat a b : Str) (j : Nat) (h : j + pat.length ≤ a.length) :
    litAt pat (a ++ b) j = litAt pat a j := by
  unfold litAt
  rw [List.drop_append_of_le_length (by omega),
    List.take_append_of_le_length (by simp only [List.length_drop]; omega)]

/-- A three-character literal matches at `j` exactly when the three
positions hold the pattern characters. -/
theorem litAt_three (a b c : Char) (l : Str) (j : Nat) :
    litAt [a, b, c] l j = true ↔
      l.get? j = some a ∧ l.get? (j + 1) = some b ∧ l.get? (j + 2) = some c := by
  have h0 : l.get? j = (l.drop j).get? 0 := by simp [List.get?_drop]
  have h1 : l.get? (j + 1) = (l.drop j).get? 1 := by simp [List.get?_drop]
  have h2 : l.get? (j + 2) = (l.drop j).get? 2 := by simp [List.get?_drop]
  rw [h0, h1, h2]
  unfold litAt
  rcases l.drop j with _ | ⟨x, _ | ⟨y, _ | ⟨z, t⟩⟩⟩ <;>
    simp [List.take, List.get?, and_assoc]

/-- Reconstructing `scheme://netloc` + path + optional query reparses to the
same netloc, provided the components are hash-free, the scheme contains no
`://`, the netloc contains no `/` or `?`, and the path is empty or starts
with `/`. -/
theorem pyNetloc_recon (s n p q : Str)
    (hs1 : '#' ∉ s) (hn1 : '#' ∉ n) (hp1 : '#' ∉ p) (hq1 : '#' ∉ q)
    (hs2 : ∀ j, litAt "://".data s j = false)
    (hn2 : ∀ c ∈ n, ¬c = '/' ∧ ¬c = '?')
    (hp2 : p = [] ∨ p.head? = some '/') :
    pyNetloc (s ++ "://".data ++ n ++ p ++ (if q ≠ [] then '?' :: q else [])) = n := by
  set q' : Str := if q ≠ [] then '?' :: q else [] with hq'
  have hq'1 : '#' ∉ q' := by
    rw [hq']
    split
    · intro hm
      rcases List.mem_cons.mp hm with h | h
      · exact absurd h.symm (by decide)
      · exact hq1 h
    · simp
  have hassoc : s ++ "://".data ++ n ++ p ++ q'
      = s ++ ("://".data ++ (n ++ (p ++ q'))) := by simp
  have hw_nohash : '#' ∉ s ++ "://".data ++ n ++ p ++ q' := by
    intro hm
    simp only [List.mem_append] at hm
    rcases hm with ((((h | h) | h) | h) | h)
    · exact hs1 h
    · exact absurd h (by decide)
    · exact hn1 h
    · exact hp1 h
    · exact hq'1 h
  have h1 : findSub "#".data (s ++ "://".data ++ n ++ p ++ q') = none :=
    findSub_single_none '#' _ hw_nohash
  have hcolon : (s ++ "://".data ++ n ++ p ++ q').get? s.length = some ':' := by
    rw [hassoc, List.get?_append_right (le_refl s.length), Nat.sub_self]
    rfl
  have hslash1 : (s ++ "://".data ++ n ++ p ++ q').get? (s.length + 1) = some '/' := by
    rw [hassoc, List.get?_append_right (by omega)]
    simp only [Nat.add_sub_cancel_left]
    rfl
  have hslash2 : (s ++ "://".data ++ n ++ p ++ q').get? (s.length + 2) = some '/' := by
    rw [hassoc, List.get?_append_right (by omega)]
    simp only [Nat.add_sub_cancel_left]
    rfl
  have h2 : findSub "://".data (s ++ "://".data ++ n ++ p ++ q') = some s.length := by
    apply findSub_eq_some
    · simp only [List.length_append]
      omega
    · rw [show ("://".data : Str) = [':', '/', '/'] from rfl, litAt_three]
      exact ⟨hcolon, hslash1, hslash2⟩
    · intro j hj
      by_cases hj3 : j + 3 ≤ s.length
      · rw [hassoc, litAt_append_left _ _ _ _ (by simpa using hj3)]
        exact hs2 j
      · rw [show ("://".data : Str) = [':', '/', '/'] from rfl]
        rw [← Bool.not_eq_true, litAt_three]
        rintro ⟨e1, e2, e3⟩
        have hsl : s.length = j + 1 ∨ s.length = j + 2 := by omega
        rcases hsl with hsl | hsl
        · rw [← hsl] at e2
          rw [hcolon] at e2
          exact absurd (Option.some.injEq _ _ ▸ e2) (by simp)
        · rw [← hsl] at e3
          rw [hcolon] at e3
          exact absurd (Option.some.injEq _ _ ▸ e3) (by simp)
  unfold pyNetloc pyUrlparse
  rw [h1]
  dsimp only
  unfold parseNoFrag
  rw [h2]
  dsimp only [splitAtFirst]
  have hdrop : (s ++ "://".data ++ n ++ p ++ q').drop (s.length + 3)
      = n ++ (p ++ q') := by
    rw [hassoc,
      show s ++ ("://".data ++ (n ++ (p ++ q'))) = (s ++ "://".data) ++ (n ++ (p ++ q'))
        from by simp,
      show s.length + 3 = (s ++ "://".data).length from by simp,
      List.drop_left]
  rw [hdrop]
  have hnall : n.all (fun c => !(decide (c = '/') || decide (c = '?'))) = true := by
    rw [List.all_eq_true]
    intro c hc
    obtain ⟨hc1, hc2⟩ := hn2 c hc
    simp [hc1, hc2]
  have htw : (n ++ (p ++ q')).takeWhile (fun c => !(decide (c = '/') || decide (c = '?')))
      = n ++ (p ++ q').takeWhile (fun c => !(decide (c = '/') || decide (c = '?'))) :=
    takeWhile_append_all _ n (p ++ q') hnall
  have hrest : (p ++ q').takeWhile (fun c => !(decide (c = '/') || decide (c = '?'))) = [] := by
    rcases hp2 with hp | hp
    · subst hp
      simp only [List.nil_append]
      rw [hq']
      split
      · rfl
      · rfl
    · rcases p with _ | ⟨c, p'⟩
      · simp at hp
      · rw [List.head?_cons, Option.some.injEq] at hp
        subst hp
        rfl
  rw [htw, hrest, List.append_nil]

/-- A window shorter than the pattern never matches it. -/
theorem litAt_short (pat l : Str) (i : Nat) (hpat : 0 < pat.length)
    (h : l.length < i + pat.length) : litAt pat l i = false := by
  unfold litAt
  cases hb : ((l.drop i).take pat.length == pat)
  · rfl
  · exfalso
    have heq : (l.drop i).take pat.length = pat := by simpa using hb
    have h1 : ((l.drop i).take pat.length).length = pat.length := by rw [heq]
    simp only [List.length_take, List.length_drop] at h1
    have h2 : pat.length ≤ l.length - i := by
      rw [← h1]
      exact Nat.min_le_right _ _
    omega

/-- Matching inside a `take` window is matching in the base string. -/
theorem litAt_take (pat l : Str) (k j : Nat) (h : j + pat.length ≤ k) :
    litAt pat (l.take k) j = litAt pat l j := by
  unfold litAt
  have hmin : min pat.length (k - j) = pat.length := by omega
  rw [List.drop_take, List.take_take, hmin]

/-- A failed single-character search means the character is absent. -/
theorem not_mem_of_findSub_single_none (c : Char) (l : Str)
    (h : findSub [c] l = none) : c ∉ l := by
  intro hm
  obtain ⟨i, hi, hget⟩ := List.mem_iff_getElem.mp hm
  unfold findSub at h
  rw [List.find?_eq_none] at h
  refine h i (by simp; omega) ?_
  rw [litAt_singleton]
  rw [List.get?_eq_getElem?, List.getElem?_eq_getElem hi, hget]

/-- Membership in a `take` window gives a position below the cut. -/
theorem mem_take_get? (x : Char) (l : Str) (k : Nat) (h : x ∈ l.take k) :
    ∃ j < k, l.get? j = some x := by
  obtain ⟨j, hj, hget⟩ := List.mem_iff_getElem.mp h
  have hjk : j < k ∧ j < l.length := by simp at hj; omega
  refine ⟨j, hjk.1, ?_⟩
  rw [List.get?_eq_getElem?, List.getElem?_eq_getElem hjk.2, ← hget, List.getElem_take]

/-- The hash-free prefix used by the simplified `urlparse`. -/
theorem hash_free_pre (u : Str) :
    ('#' ∉ u ∧ findSub "#".data u = none)
    ∨ ∃ i, findSub "#".data u = some i ∧ '#' ∉ u.take i := by
  rcases hh : findSub "#".data u with _ | i
  · exact Or.inl ⟨not_mem_of_findSub_single_none '#' u hh, rfl⟩
  · right
    refine ⟨i, rfl, fun hm => ?_⟩
    obtain ⟨j, hj, hget⟩ := mem_take_get? '#' u i hm
    have := (findSub_some_spec "#".data u i hh).2 j hj
    rw [show ("#".data : Str) = ['#'] from rfl] at this
    rw [← litAt_singleton] at hget
    rw [hget] at this
    exact absurd this (by decide)

/-- Every parse is the fragment-free parse of a hash-free prefix. -/
theorem pyUrlparse_eq_parseNoFrag (u : Str) :
    ∃ pre frag, pyUrlparse u = parseNoFrag pre frag ∧ '#' ∉ pre := by
  rcases hash_free_pre u with ⟨hnm, hfs⟩ | ⟨i, hfs, hnm⟩
  · refine ⟨u, [], ?_, hnm⟩
    unfold pyUrlparse
    rw [hfs]
  · refine ⟨u.take i, u.drop (i + 1), ?_, hnm⟩
    unfold pyUrlparse
    rw [hfs]

/-- Structural properties of a parse whose netloc is nonempty: the
components are hash-free, the scheme contains no `://`, the netloc has no
`/` or `?`, and the path is empty or starts with `/`. -/
theorem pyUrlparse_props (u : Str) (hne : (pyUrlparse u).netloc ≠ []) :
    ('#' ∉ (pyUrlparse u).scheme ∧ '#' ∉ (pyUrlparse u).netloc
      ∧ '#' ∉ (pyUrlparse u).path ∧ '#' ∉ (pyUrlparse u).query)
    ∧ (∀ j, litAt "://".data (pyUrlparse u).scheme j = false)
    ∧ (∀ c ∈ (pyUrlparse u).netloc, ¬c = '/' ∧ ¬c = '?')
    ∧ ((pyUrlparse u).path = [] ∨ (pyUrlparse u).path.head? = some '/') := by
  obtain ⟨pre, frag, hh, hprehash⟩ := pyUrlparse_eq_parseNoFrag u
  rw [hh] at hne ⊢
  rcases hc : findSub "://".data pre with _ | k
  · exfalso
    apply hne
    unfold parseNoFrag
    rw [hc]
  · have hrec : parseNoFrag pre frag
        = ⟨pre.take k,
           (pre.drop (k + 3)).takeWhile (fun c => !(decide (c = '/') || decide (c = '?'))),
           ((pre.drop (k + 3)).dropWhile
              (fun c => !(decide (c = '/') || decide (c = '?')))).takeWhile
             (fun c => !(decide (c = '?'))),
           (match ((pre.drop (k + 3)).dropWhile
              (fun c => !(decide (c = '/') || decide (c = '?')))).dropWhile
              (fun c => !(decide (c = '?'))) with
            | _ :: q => q
            | [] => []),
           frag⟩ := by
      unfold parseNoFrag
      rw [hc]
      dsimp only [splitAtFirst]
      rfl
    obtain ⟨hmin, hminlt⟩ :
        litAt "://".data pre k = true ∧ ∀ j < k, litAt "://".data pre j = false :=
      findSub_some_spec _ _ _ hc
    rw [hrec]
    dsimp only
    refine ⟨⟨?_, ?_, ?_, ?_⟩, ?_, ?_, ?_⟩
    · intro hm
      exact hprehash (List.take_subset k pre hm)
    · intro hm
      exact hprehash (List.drop_subset (k + 3) pre ((List.takeWhile_sublist _).subset hm))
    · intro hm
      exact hprehash (List.drop_subset (k + 3) pre
        ((List.dropWhile_sublist _).subset ((List.takeWhile_sublist _).subset hm)))
    · intro hm
      rcases hr3 : ((pre.drop (k + 3)).dropWhile
          (fun c => !(decide (c = '/') || decide (c = '?')))).dropWhile
          (fun c => !(decide (c = '?'))) with _ | ⟨c0, q0⟩
      · rw [hr3] at hm
        simp at hm
      · rw [hr3] at hm
        have hm2 : '#' ∈ c0 :: q0 := List.mem_cons_of_mem c0 hm
        rw [← hr3] at hm2
        exact hprehash (List.drop_subset (k + 3) pre
          ((List.dropWhile_sublist _).subset ((List.dropWhile_sublist _).subset hm2)))
    · intro j
      have hlen3 : ("://".data : Str).length = 3 := rfl
      by_cases hj3 : j + 3 ≤ k
      · rw [litAt_take _ _ _ _ (by rw [hlen3]; omega)]
        exact hminlt j (by omega)
      · apply litAt_short _ _ _ (by decide)
        simp only [List.length_take, hlen3]
        omega
    · intro c hc2
      have := List.mem_takeWhile_imp hc2
      simpa using this
    · rcases hr2 : (pre.drop (k + 3)).dropWhile
          (fun c => !(decide (c = '/') || decide (c = '?'))) with _ | ⟨c0, t0⟩
      · left
        rfl
      · have hc0 : (fun c => !(decide (c = '/') || decide (c = '?'))) c0 = false :=
          dropWhile_head_neg _ _ c0 t0 hr2
        have hor : c0 = '/' ∨ c0 = '?' := by
          simpa [Decidable.or_iff_not_imp_left] using hc0
        rcases hor with h0 | h0
        · right
          subst h0
          rw [List.takeWhile_cons_of_pos (by decide)]
          rfl
        · left
          subst h0
          rw [List.takeWhile_cons_of_neg (by decide)]

/-- Cleaning a URL preserves its netloc, whenever the netloc is nonempty. -/
theorem netloc_clean (u : Str) (hne : pyNetloc u ≠ []) :
    pyNetloc (clean_url u) = pyNetloc u := by
  obtain ⟨⟨ha1, ha2, ha3, ha4⟩, hb, hcn, hd⟩ := pyUrlparse_props u hne
  unfold clean_url
  exact pyNetloc_recon _ _ _ _ ha1 ha2 ha3 ha4 hb hcn hd

/-- Membership in a Python-set insertion. -/
theorem mem_pySetAdd (s : List Str) (y x : Str) : x ∈ pySetAdd s y ↔ x ∈ s ∨ x = y := by
  unfold pySetAdd
  split
  · rename_i hy
    constructor
    · exact Or.inl
    · rintro (h | rfl)
      exacts [h, hy]
  · simp [List.mem_append]

/-- Every link produced by `extract_links` is the cleaned form of a joined
URL that passed the internal-link check. -/
theorem mem_extract_links_aux (join : Str → Str → Str) (base x : Str) :
    ∀ (hrefs : List Str) (acc : List Str),
      x ∈ hrefs.foldl (fun acc href =>
        let full := join base href
        if is_internal_link full base then pySetAdd acc (clean_url full) else acc) acc →
      x ∈ acc ∨ ∃ full, x = clean_url full ∧ is_internal_link full base = true := by
  intro hrefs
  induction hrefs with
  | nil => intro acc hacc; exact Or.inl hacc
  | cons h0 t ih =>
    intro acc hacc
    rw [List.foldl_cons] at hacc
    rcases ih _ hacc with h1 | h1
    · dsimp only at h1
      by_cases hint : is_internal_link (join base h0) base = true
      · rw [if_pos hint] at h1
        rcases (mem_pySetAdd _ _ _).mp h1 with h2 | h2
        · exact Or.inl h2
        · exact Or.inr ⟨join base h0, h2, hint⟩
      · rw [if_neg hint] at h1
        exact Or.inl h1
    · exact Or.inr h1

/-- Unpacked form of `mem_extract_links_aux` for the empty accumulator. -/
theorem mem_extract_links (join : Str → Str → Str) (hrefs : List Str) (base x : Str)
    (hx : x ∈ extract_links join hrefs base) :
    ∃ full, x = clean_url full ∧ is_internal_link full base = true := by
  unfold extract_links at hx
  rcases mem_extract_links_aux join base x hrefs [] hx with h | h
  · simp at h
  · exact h

/-- Every link surviving `_filter_and_prioritize_links` came from the input
and passed the per-link filter. -/
theorem mem_filter_and_prioritize (st : CrawlSt) (links : List Str) (domain x : Str)
    (hx : x ∈ filter_and_prioritize_links st links domain) :
    x ∈ links ∧ linkPassesFilter st domain x = true := by
  unfold filter_and_prioritize_links prioritize_links_by_relevance at hx
  rw [List.mem_insertionSort] at hx
  exact ⟨List.mem_of_mem_filter hx, List.of_mem_filter hx⟩

/-- The inner admission loop preserves the crawl invariant when every
candidate link has the seed's netloc and avoids the denylists. -/
theorem addLinks_inv (cfg : CrawlerCfg) (seed : Str) (depth : Nat) :
    ∀ (links : List Str) (st : CrawlSt),
      (∀ x ∈ links, pyNetloc x = pyNetloc seed ∧ noDenyHit x = true) →
      crawlInv cfg seed st → crawlInv cfg seed (addLinks cfg depth links st) := by
  intro links
  induction links with
  | nil => intro st _ hinv; exact hinv
  | cons l ls ih =>
    intro st hlinks hinv
    unfold addLinks at ih ⊢
    rw [List.foldl_cons]
    apply ih _ (fun x hx => hlinks x (List.mem_cons_of_mem l hx))
    split
    · rename_i hcond
      simp only [Bool.and_eq_true, decide_eq_true_eq] at hcond
      obtain ⟨hlen, hmem⟩ := hinv
      constructor
      · simp only [List.length_append, List.length_cons, List.length_nil]
        omega
      · intro u hu
        rcases List.mem_append.mp hu with h | h
        · exact hmem u h
        · rw [List.mem_singleton] at h
          subst h
          exact ⟨(hlinks u (List.mem_cons_self u ls)).1,
            fun _ => (hlinks u (List.mem_cons_self u ls)).2⟩
    · exact hinv

/-- One batch of the crawl loop preserves the crawl invariant. -/
theorem processBatch_inv (cfg : CrawlerCfg) (fetch : Str → Option (List Str))
    (join : Str → Str → Str) (seed : Str) (depth : Nat)
    (hseed : pyNetloc seed ≠ []) :
    ∀ (batch : List Str) (st : CrawlSt), crawlInv cfg seed st →
      crawlInv cfg seed (processBatch cfg fetch join seed depth batch st) := by
  intro batch
  induction batch with
  | nil => intro st h; exact h
  | cons url rest ih =>
    intro st hinv
    unfold processBatch
    by_cases h1 : st.discovered.length ≥ cfg.maxPages
    · rw [if_pos h1]
      exact hinv
    · rw [if_neg h1]
      by_cases h2 : url ∈ st.visited
      · rw [if_pos h2]
        exact ih st hinv
      · rw [if_neg h2]
        cases hf : fetch url with
        | none => exact ih _ hinv
        | some hrefs =>
          apply ih
          refine addLinks_inv cfg seed depth _ _ ?_ ?_
          swap
          · exact hinv
          intro x hx
          obtain ⟨hmem, hpass⟩ := mem_filter_and_prioritize _ _ _ _ hx
          obtain ⟨full, rfl, hint⟩ := mem_extract_links join hrefs seed x hmem
          have hfull : pyNetloc full = pyNetloc seed := by
            simpa [is_internal_link] using hint
          constructor
          · rw [netloc_clean full (by rw [hfull]; exact hseed), hfull]
          · unfold linkPassesFilter at hpass
            simp only [Bool.and_eq_true] at hpass
            exact hpass.2

/-- The depth loop preserves the crawl invariant. -/
theorem crawlLevels_inv (cfg : CrawlerCfg) (fetch : Str → Option (List Str))
    (join : Str → Str → Str) (seed : Str) (hseed : pyNetloc seed ≠ []) :
    ∀ (depths : List Nat) (st : CrawlSt), crawlInv cfg seed st →
      crawlInv cfg seed (crawlLevels cfg fetch join seed depths st) := by
  intro depths
  induction depths with
  | nil => intro st h; exact h
  | cons d ds ih =>
    intro st hinv
    unfold crawlLevels
    split
    · exact hinv
    · exact ih _ (processBatch_inv cfg fetch join seed d hseed st.frontier _ hinv)

/-- Every URL returned by `_prioritize_urls` came from the input list. -/
theorem mem_prioritize_urls (cfg : CrawlerCfg) (urls : List Str) (u : Str)
    (hu : u ∈ prioritize_urls cfg urls) : u ∈ urls := by
  unfold prioritize_urls at hu
  have h1 := List.take_subset _ _ hu
  simp only [prioritize_links_by_relevance, List.mem_insertionSort] at h1
  rcases (mem_foldl_pySetAdd urls [] u).mp h1 with h2 | h2
  · simp at h2
  · exact h2

/-- C5 amended: the crawl result is at most `max_pages` long; every result
URL has the seed's netloc; every result URL other than the seed itself hits
neither the path-pattern nor the extension denylist (the seed is admitted
unfiltered); the discovered set holds at most `max(1, max_pages)` URLs at
the start and after every step of the level loop.  Requires a seed whose
normalized form has a nonempty netloc. -/
theorem c5_amended_crawl_invariants (cfg : CrawlerCfg) (robots : Bool)
    (fetch : Str → Option (List Str)) (join : Str → Str → Str) (d0 : Str)
    (hseed : pyNetloc (normalizeSeed d0) ≠ []) :
    (crawl_company_website cfg robots fetch join d0).length ≤ cfg.maxPages
    ∧ (∀ u ∈ crawl_company_website cfg robots fetch join d0,
        pyNetloc u = pyNetloc (normalizeSeed d0))
    ∧ (∀ u ∈ crawl_company_website cfg robots fetch join d0,
        u ≠ normalizeSeed d0 → noDenyHit u = true)
    ∧ crawlInv cfg (normalizeSeed d0)
        ⟨[], [], [], [normalizeSeed d0], [normalizeSeed d0]⟩
    ∧ (∀ (depths : List Nat) (st : CrawlSt), crawlInv cfg (normalizeSeed d0) st →
        crawlInv cfg (normalizeSeed d0)
          (crawlLevels cfg fetch join (normalizeSeed d0) depths st)) := by
  have hinit : crawlInv cfg (normalizeSeed d0)
      ⟨[], [], [], [normalizeSeed d0], [normalizeSeed d0]⟩ := by
    constructor
    · simp only [List.length_cons, List.length_nil]
      omega
    · intro u hu
      rw [List.mem_singleton] at hu
      subst hu
      exact ⟨rfl, fun h => absurd rfl h⟩
  have hpres := crawlLevels_inv cfg fetch join (normalizeSeed d0) hseed
  have hfinal : ∀ u ∈ crawl_company_website cfg robots fetch join d0,
      pyNetloc u = pyNetloc (normalizeSeed d0)
        ∧ (u ≠ normalizeSeed d0 → noDenyHit u = true) := by
    intro u hu
    unfold crawl_company_website at hu
    by_cases hrob : robots = true
    · rw [if_neg (by simp [hrob])] at hu
      have hmem := mem_prioritize_urls cfg _ u hu
      exact (hpres (List.range (cfg.maxDepth + 1)) _ hinit).2 u hmem
    · rw [if_pos (by simpa using hrob)] at hu
      simp at hu
  refine ⟨?_, fun u hu => (hfinal u hu).1, fun u hu => (hfinal u hu).2, hinit, hpres⟩
  unfold crawl_company_website
  split
  · simp
  · unfold prioritize_urls
    simp only [List.length_take]
    omega

/-- C5 witness: a concrete crawl of `example.com` stays within 3 pages. -/
theorem c5_amended_crawl_invariants_witness :
    pyNetloc (normalizeSeed "example.com".data) ≠ []
    ∧ (crawl_company_website ⟨1, 3⟩ true (fun _ => some []) (fun _ h => h)
        "example.com".data).length ≤ 3 :=
  ⟨by decide,
   (c5_amended_crawl_invariants ⟨1, 3⟩ true (fun _ => some []) (fun _ h => h)
     "example.com".data (by decide)).1⟩

/-!
## Sanity checks of the embedding on the spec's test vectors
-/

example : cleanDomain "WWW.Example.com".data = "example.com".data := by decide
example : ("info@example.com".data) ∈ generate_common_emails "example.com".data := by decide
example : ("dev@techcorp.io".data) ∈ generate_common_emails "TechCorp.io".data := by decide
example : (verify_email true (fun _ => (false, [])) "info@gmail.com".data).1 = true := by decide
example : (verify_email true (fun _ => (false, [])) "info@gmail.com".data).2.1 = 100 := by decide
example : verify_email false (fun _ => (true, [])) "x@10minutemail.com".data
    = (false, 10, "Disposable email: Known disposable domain: 10minutemail.com".data) := by decide
example : (verify_email false (fun _ => (true, [])) "a@@b".data).2.1 = 0 := by decide
example : (verify_email true (fun _ => (false, [])) "a@b.co".data).2.1 = 90 := by decide
example : extract_emails_from_content "info@example.com".data = ["info@example.com".data] := by decide
example : extract_emails_from_content "Contact us at jane.doe [at] example [dot] com".data
    = ["jane.doe@example.com".data] := by decide
example : extract_emails_from_links ["mailto:Bob@Example.com?subject=hi".data, "/about".data]
    = ["bob@example.com".data] := by decide
example : normalize_email " (a@b.com) ".data = "(a@b.com)".data := by decide
example : normalize_email "User @ Example . COM".data = "user@example.com".data := by decide
example : pyNetloc "https://example.com/a/b?q=1#f".data = "example.com".data := by decide
example : clean_url "https://example.com/a/b?q=1#f".data = "https://example.com/a/b?q=1".data := by decide
example : link_priority "https://example.com/a/b".data = 3 := by decide
example : link_priority "https://example.com/contact".data = 14 := by decide
example : crawl_company_website ⟨1, 5⟩ true (fun _ => none) (fun _ h => h) "example.com/api/x".data
    = ["https://example.com/api/x".data] := by decide

